import Mathlib

/-!
A verification development for the jape repository: a shallow embedding of
the japecheck static analyzer (`analyzer.go`) and of the HTTP runtime layer
(`server.go`), with theorems checking the natural-language specification
against the embedded code.

Strings are manipulated through their underlying character lists so that all
definitions are executable and kernel-reducible; the Go standard-library
calls used by the source (`strings.Split`, `strings.Join`, `strings.Count`,
`strings.Index`, `strings.HasPrefix`, `strings.Fields` restricted to the
shapes the analyzer uses) are reimplemented faithfully below.
-/

namespace Jape

/-! ## String utilities (models of the `strings` package calls used) -/

/-- Model of `strings.Split(s, sep)` for a one-character separator,
on the character-list level. `splitCharList c l` splits `l` at every
occurrence of `c`, keeping empty pieces, like Go's `strings.Split`. -/
def splitCharList (c : Char) : List Char → List (List Char)
  | [] => [[]]
  | x :: xs =>
    if x = c then [] :: splitCharList c xs
    else
      match splitCharList c xs with
      | [] => [[x]]
      | y :: ys => (x :: y) :: ys

/-- Model of `strings.Split(s, sep)` for a one-character separator. -/
def splitOnChar (c : Char) (s : String) : List String :=
  (splitCharList c s.data).map String.mk

/-- Model of `strings.Join(parts, sep)` for a one-character separator. -/
def joinChar (c : Char) : List String → String
  | [] => ""
  | [s] => s
  | s :: rest => s ++ String.mk [c] ++ joinChar c rest

/-- Whether the first character of `s` is `c`; model of
`strings.HasPrefix(s, string(c))` for a one-character pattern. -/
def headIs (c : Char) (s : String) : Bool :=
  match s.data with
  | [] => false
  | a :: _ => a = c

/-- Model of Go's `s[1:]` on a string whose first byte is ASCII. -/
def strTail (s : String) : String := String.mk s.data.tail

/-- Model of `strings.Count(s, pat)` for a two-character pattern
(counting non-overlapping occurrences). -/
def countPat2 (a b : Char) : List Char → Nat
  | x :: y :: rest =>
    if x = a ∧ y = b then countPat2 a b rest + 1
    else countPat2 a b (y :: rest)
  | _ => 0

/-- Model of `strings.Index(s, pat)` for a two-character pattern:
the index of the first occurrence, or `none` for Go's `-1`. -/
def findPat2 (a b : Char) : List Char → Option Nat
  | x :: y :: rest =>
    if x = a ∧ y = b then some 0
    else (findPat2 a b (y :: rest)).map (· + 1)
  | _ => none

/-- Model of `strings.Index(s, string(c))` for a one-character pattern. -/
def findChar (c : Char) : List Char → Option Nat
  | [] => none
  | x :: xs => if x = c then some 0 else (findChar c xs).map (· + 1)

/-- Decimal digit character. -/
def digitChar (n : Nat) : Char := Char.ofNat (48 + n)

/-- Fueled decimal rendering of a natural number (fuel `n + 1` suffices). -/
def natStrAux : Nat → Nat → List Char
  | 0, _ => []
  | fuel + 1, n =>
    if n < 10 then [digitChar n]
    else natStrAux fuel (n / 10) ++ [digitChar (n % 10)]

/-- Decimal rendering of a natural number, as Go's `fmt` verbs print it. -/
def natStr (n : Nat) : String := String.mk (natStrAux (n + 1) n)

/-! ## Go types

The analyzer manipulates `go/types.Type` values only through pointer
formation/stripping, identity comparison, the untyped-nil sentinel
`types.Typ[types.UntypedNil]`, and `fmt` rendering. `GoType` captures
exactly that interface; `types.Identical` becomes decidable equality. -/

inductive GoType where
  /-- A non-pointer, non-nil type, identified by how `types.Type.String`
  renders it (e.g. `named "int"`). -/
  | named (s : String)
  /-- `*t`, as built by `types.NewPointer`. -/
  | ptr (t : GoType)
  /-- The untyped-nil sentinel `types.Typ[types.UntypedNil]`. -/
  | untypedNil
deriving DecidableEq, Repr

namespace GoType

/-- How `fmt`'s `%v` renders the type (via `types.Type.String`). -/
def str : GoType → String
  | named s => s
  | ptr t => "*" ++ t.str
  | untypedNil => "untyped nil"

/-- Model of `isPtr` in `analyzer.go`. -/
def isPtrT : GoType → Bool
  | ptr _ => true
  | _ => false

end GoType

/-- Model of the `elem` helper in `run` (`analyzer.go`): strip one pointer
if present, otherwise return the type unchanged. -/
def elem : GoType → GoType
  | .ptr t => t
  | t => t

/-- Model of the `ptrTo` helper in `run` (`analyzer.go`): wrap in a pointer
unless the type is the untyped-nil sentinel. -/
def ptrTo (t : GoType) : GoType :=
  if t = .untypedNil then t else .ptr t

/-- `elem` lifted to a possibly-absent (`nil` in Go) type; a Go `nil`
interface fails the `*types.Pointer` assertion and is returned unchanged. -/
def elemO : Option GoType → Option GoType
  | some t => some (elem t)
  | none => none

/-- Model of `types.Identical(got, want)` where `want` may be a Go `nil`
interface (never identical to a non-nil type). -/
def identicalO (got : GoType) : Option GoType → Bool
  | some w => got = w
  | none => false

/-- How `fmt`'s `%v` renders a possibly-nil `types.Type`. -/
def strO : Option GoType → String
  | some t => t.str
  | none => "<nil>"

/-! ## Route models and the Route Normalizer -/

/-- Model of `serverParam` (`analyzer.go`): a path parameter whose type is
`nil` until the first `DecodeParam`/`PathParam` use. -/
structure SParam where
  name : String
  typ : Option GoType
deriving DecidableEq, Repr

/-- Model of `serverRoute` (`analyzer.go`) minus the `seen` flag, which the
parity checker owns (see `RouteEntry`). `queryParams` is the map
`map[string]types.Type` as an association list in insertion order. -/
structure SRoute where
  method : String
  path : String
  pathParams : List SParam
  queryParams : List (String × GoType)
  request : GoType
  response : GoType
deriving DecidableEq, Repr

/-- `serverRoute.String`: `r.method + " " + r.path`. -/
def SRoute.toStr (r : SRoute) : String := r.method ++ " " ++ r.path

/-- Model of `serverRoute.normalizedRoute` on the method/path pair: split
the path on `/`, rewrite every segment starting with `:` or `*` to `"%s"`,
rejoin, and put the method in front. -/
def serverNormalize (method path : String) : String :=
  method ++ " " ++ joinChar '/'
    ((splitOnChar '/' path).map fun seg =>
      if headIs ':' seg || headIs '*' seg then "%s" else seg)

/-- `serverRoute.normalizedRoute`. -/
def SRoute.normalizedRoute (r : SRoute) : String :=
  serverNormalize r.method r.path

/-- Model of `clientRoute` (`analyzer.go`). The expression-valued fields
(`pathParams`, `queryParams` values, `request`, `response`) are replaced by
the static types the checker reads off them with `typeof`; `request` and
`response` are `none` when the corresponding `ast.Expr` field is Go-`nil`
(not supplied for this verb). -/
structure CRoute where
  method : String
  path : String
  pathParams : List GoType
  queryParams : List (String × GoType)
  request : Option GoType
  response : Option GoType
deriving DecidableEq, Repr

/-- `clientRoute.String`: `r.method + " " + r.path`. -/
def CRoute.toStr (r : CRoute) : String := r.method ++ " " ++ r.path

/-- The query-suffix strip in `clientRoute.normalizedRoute`:
`strings.Split(path, "?")` and keep the first piece when there were ≥ 2. -/
def stripQuery (path : String) : String :=
  match splitOnChar '?' path with
  | p :: _ :: _ => p
  | _ => path

/-- Model of `clientRoute.normalizedRoute` on the method/path pair: strip a
query suffix, split on `/`, rewrite every segment starting with `%` of
length > 1 to `"%s"`, rejoin, and put the method in front. -/
def clientNormalize (method path : String) : String :=
  method ++ " " ++ joinChar '/'
    ((splitOnChar '/' (stripQuery path)).map fun seg =>
      if headIs '%' seg && seg.data.length > 1 then "%s" else seg)

/-- `clientRoute.normalizedRoute`. -/
def CRoute.normalizedRoute (r : CRoute) : String :=
  clientNormalize r.method r.path

/-- One server segment and one client segment describe the same logical
path position: either the identical non-parameter segment (not shaped like
a substitution placeholder on the client side), or a `:`/`*` parameter
segment on the server matched by the client's `"%s"` placeholder. -/
def segMatch (s c : String) : Bool :=
  (c = s && !(headIs ':' s || headIs '*' s)
         && !(headIs '%' c && c.data.length > 1))
  || ((headIs ':' s || headIs '*' s) && c = "%s")

/-- Pointwise `segMatch` on segment lists of equal length. -/
def segsMatch : List String → List String → Bool
  | [], [] => true
  | s :: ss, c :: cs => segMatch s c && segsMatch ss cs
  | _, _ => false

/-! ## The Parity Checker (`run` in `analyzer.go`)

Each `pass.Report` site of the client-comparison phase becomes one
constructor of `Diag`, carrying the data the Go code formats into the
message; `Diag.render` reproduces the exact message strings. -/

inductive Diag where
  /-- "Client references route not defined by server: %v" -/
  | routeNotDefined (cr : CRoute)
  /-- "Client references %v multiple times" -/
  | multipleRefs (cr : CRoute)
  /-- "Client has wrong request type for %v (got %v, should be %v)" -/
  | wrongRequestType (sr : SRoute) (got want : GoType)
  /-- "Client has wrong response type for %v (got %v, should be %v)" -/
  | wrongResponseType (sr : SRoute) (got want : GoType)
  /-- "Client has too few path parameters for %v" -/
  | tooFewPathParams (sr : SRoute)
  /-- "Client has wrong type for path parameter %q (got %v, should be %v)" -/
  | wrongPathParamType (name : String) (got : GoType) (want : Option GoType)
  /-- "Client references undefined query parameter %q" -/
  | undefinedQueryParam (name : String)
  /-- "Client has wrong type for query parameter %q (got %v, should be %v)" -/
  | wrongQueryParamType (name : String) (got want : GoType)
  /-- "Client missing method for %v" -/
  | missingMethod (sr : SRoute)
  /-- "route contains (%v path + %v form) = %v parameters, but %v arguments
  are supplied" (reported by `sprintfParse` in `parseClientRoute`) -/
  | sprintfArity (nPath nForm nArgs : Nat)
deriving DecidableEq, Repr

/-- The exact diagnostic message each `pass.Report` call formats. -/
def Diag.render : Diag → String
  | .routeNotDefined cr =>
    "Client references route not defined by server: " ++ cr.toStr
  | .multipleRefs cr => "Client references " ++ cr.toStr ++ " multiple times"
  | .wrongRequestType sr got want =>
    "Client has wrong request type for " ++ sr.toStr ++ " (got " ++ got.str
      ++ ", should be " ++ want.str ++ ")"
  | .wrongResponseType sr got want =>
    "Client has wrong response type for " ++ sr.toStr ++ " (got " ++ got.str
      ++ ", should be " ++ want.str ++ ")"
  | .tooFewPathParams sr => "Client has too few path parameters for " ++ sr.toStr
  | .wrongPathParamType name got want =>
    "Client has wrong type for path parameter \"" ++ name ++ "\" (got "
      ++ got.str ++ ", should be " ++ strO want ++ ")"
  | .undefinedQueryParam name =>
    "Client references undefined query parameter \"" ++ name ++ "\""
  | .wrongQueryParamType name got want =>
    "Client has wrong type for query parameter \"" ++ name ++ "\" (got "
      ++ got.str ++ ", should be " ++ want.str ++ ")"
  | .missingMethod sr => "Client missing method for " ++ sr.toStr
  | .sprintfArity nPath nForm nArgs =>
    "route contains (" ++ natStr nPath ++ " path + " ++ natStr nForm
      ++ " form) = " ++ natStr (nPath + nForm) ++ " parameters, but "
      ++ natStr nArgs ++ " arguments are supplied"

/-- The request-type comparison of `run`: when the call supplies a request
expression, its static type must be identical to `elem(sr.request)`. -/
def compareRequest (sr : SRoute) (crReq : Option GoType) : List Diag :=
  match crReq with
  | none => []
  | some got =>
    if got = elem sr.request then []
    else [.wrongRequestType sr got (elem sr.request)]

/-- The response-type comparison of `run`: when the call supplies a response
expression, its static type must be identical to `ptrTo(sr.response)`. -/
def compareResponse (sr : SRoute) (crResp : Option GoType) : List Diag :=
  match crResp with
  | none => []
  | some got =>
    if got = ptrTo sr.response then []
    else [.wrongResponseType sr got (ptrTo sr.response)]

/-- The positional path-parameter loop of `run`: every server parameter
beyond the client's list reports "too few path parameters"; a present pair
must satisfy `types.Identical(typeof(cp), elem(sp.typ))`. Extra client
parameters are ignored (the loop ranges over `sr.pathParams`). -/
def comparePathParams (sr : SRoute) : List SParam → List GoType → List Diag
  | [], _ => []
  | _ :: sps, [] => .tooFewPathParams sr :: comparePathParams sr sps []
  | sp :: sps, c :: cs =>
    (if identicalO c (elemO sp.typ) then []
     else [.wrongPathParamType sp.name c (elemO sp.typ)])
      ++ comparePathParams sr sps cs

/-- Association-list lookup, modeling a Go map read. -/
def lookupAssoc {α : Type} : List (String × α) → String → Option α
  | [], _ => none
  | (k, v) :: rest, key => if k = key then some v else lookupAssoc rest key

/-- The query-parameter loop of `run`: a client query key the server never
consumed is "undefined"; otherwise the argument type must be identical to
`elem` of the server's recorded type. -/
def compareQueryParams (sr : SRoute) : List (String × GoType) → List Diag
  | [] => []
  | (name, got) :: rest =>
    (match lookupAssoc sr.queryParams name with
     | none => [.undefinedQueryParam name]
     | some sq =>
       if got = elem sq then [] else [.wrongQueryParamType name got (elem sq)])
      ++ compareQueryParams sr rest

/-- All field comparisons `run` performs for a matched pair, in report
order: request, response, path parameters, query parameters. -/
def compareRoute (sr : SRoute) (cr : CRoute) : List Diag :=
  compareRequest sr cr.request ++ compareResponse sr cr.response
    ++ comparePathParams sr sr.pathParams cr.pathParams
    ++ compareQueryParams sr cr.queryParams

/-- One entry of the `routes` map (`map[string]*serverRoute`), with the
mutable `seen` flag the parity checker flips. -/
structure RouteEntry where
  key : String
  route : SRoute
  seen : Bool
deriving DecidableEq, Repr

/-- Map read `routes[k]`. -/
def lookupRoute : List RouteEntry → String → Option RouteEntry
  | [], _ => none
  | e :: rs, k => if e.key = k then some e else lookupRoute rs k

/-- `sr.seen = true` through the map: flip the flag of the entry at `k`. -/
def markSeen : List RouteEntry → String → List RouteEntry
  | [], _ => []
  | e :: rs, k =>
    if e.key = k then { e with seen := true } :: rs else e :: markSeen rs k

/-- Map write `routes[r.normalizedRoute()] = r` (overwriting semantics). -/
def setRoute : List RouteEntry → String → SRoute → List RouteEntry
  | [], k, r => [⟨k, r, false⟩]
  | e :: rs, k, r =>
    if e.key = k then ⟨k, r, false⟩ :: rs else e :: setRoute rs k r

/-- The server-route table built by `run`'s first phase: every successfully
parsed route inserted under its normalized key, in source order. -/
def buildRoutes (srs : List SRoute) : List RouteEntry :=
  srs.foldl (fun rs r => setRoute rs r.normalizedRoute r) []

/-- Processing of a single client call against the route table, as in
`run`'s second phase: unknown key → "route not defined"; already seen →
"multiple times"; otherwise mark seen and compare every field. -/
def processOne (rs : List RouteEntry) (cr : CRoute) :
    List RouteEntry × List Diag :=
  match lookupRoute rs cr.normalizedRoute with
  | none => (rs, [.routeNotDefined cr])
  | some e =>
    if e.seen then (rs, [.multipleRefs cr])
    else (markSeen rs cr.normalizedRoute, compareRoute e.route cr)

/-- All client calls processed in source order, diagnostics accumulated in
report order. -/
def processCalls (rs : List RouteEntry) : List CRoute → List RouteEntry × List Diag
  | [] => (rs, [])
  | c :: cs =>
    let p := processOne rs c
    let q := processCalls p.1 cs
    (q.1, p.2 ++ q.2)

/-- `run`'s final loop: one "missing method" report per never-seen route. -/
def finalize : List RouteEntry → List Diag
  | [] => []
  | e :: rs => (if e.seen then [] else [.missingMethod e.route]) ++ finalize rs

/-- The complete parity run on already-extracted routes and calls: build the
route table, process every client call, then report unreferenced routes. -/
def runParity (srs : List SRoute) (crs : List CRoute) : List Diag :=
  let rs := buildRoutes srs
  let p := processCalls rs crs
  p.2 ++ finalize p.1

/-! ## The Route-Definition Extractor (`parseServerRoute` in `analyzer.go`)

A handler body is embedded as the sequence of recognized `jape.Context`
method calls the `ast.Inspect` walk encounters, in source order. String
arguments already constant-folded by `evalConstString` are carried as
strings, expression arguments as their static types. Positions are
abstracted to the index of the call in the sequence (`SPos.op i`) or the
handler body itself (`SPos.body`). The route key is taken already split
into method and path (`strings.Fields` on the folded key), and the
`-sprefix` flag keeps its default `""` so `strings.TrimPrefix` is the
identity. -/

inductive CtxOp where
  /-- `jc.Custom(reqExpr, respExpr)` with the static types of the two
  arguments (`types.Typ[types.UntypedNil]` for a literal `nil`). -/
  | custom (req resp : GoType)
  /-- `jc.Decode(expr)` with the argument's static type. -/
  | decode (t : GoType)
  /-- `jc.Encode(expr)` with the argument's static type. -/
  | encode (t : GoType)
  /-- `jc.DecodeForm(name, expr)` with the folded name and the type. -/
  | decodeForm (name : String) (t : GoType)
  /-- `jc.DecodeParam(name, expr)` with the folded name and the type. -/
  | decodeParam (name : String) (t : GoType)
  /-- `jc.PathParam(name)` with the folded name. -/
  | pathParam (name : String)
deriving DecidableEq, Repr

/-- Where a server-extraction diagnostic is reported: at the `i`-th
recognized call, or at the handler body (the `funcBody.Pos()` reports). -/
inductive SPos where
  | op (i : Nat)
  | body
deriving DecidableEq, Repr

/-- The `pass.Report` sites of `parseServerRoute`, one constructor each. -/
inductive SDiag where
  /-- "Request type must be a pointer" -/
  | requestNotPtr
  /-- "%v routes should not read a request object" -/
  | shouldNotRead (method : String)
  /-- "%v routes should write a response object" -/
  | shouldWriteResponse (method : String)
  /-- "%v routes should read a request object" -/
  | shouldReadRequest (method : String)
  /-- "%v routes should not write a response object" -/
  | shouldNotWrite (method : String)
  /-- "Decode called on non-pointer value" -/
  | decodeNonPtr
  /-- "Decode called on %v, but was previously called on %v" -/
  | decodeConflict (got prev : GoType)
  /-- "Encode called on %v, but was previously called on %v" -/
  | encodeConflict (got prev : GoType)
  /-- "Form value %q decoded as %v, but was previously decoded as %v" -/
  | formConflict (name : String) (got prev : GoType)
  /-- "DecodeParam called on param (%q) not present in route definition" -/
  | paramNotInRoute (name : String)
  /-- "PathParam called on param (%q) not present in route definition" -/
  | pathParamNotInRoute (name : String)
  /-- "Param %q decoded as %v, but was previously decoded as %v" -/
  | paramConflict (name : String) (got prev : GoType)
  /-- "DecodeParam called on non-pointer value" -/
  | decodeParamNonPtr
deriving DecidableEq, Repr

/-- The exact message each `parseServerRoute` report formats. -/
def SDiag.render : SDiag → String
  | .requestNotPtr => "Request type must be a pointer"
  | .shouldNotRead m => m ++ " routes should not read a request object"
  | .shouldWriteResponse m => m ++ " routes should write a response object"
  | .shouldReadRequest m => m ++ " routes should read a request object"
  | .shouldNotWrite m => m ++ " routes should not write a response object"
  | .decodeNonPtr => "Decode called on non-pointer value"
  | .decodeConflict got prev =>
    "Decode called on " ++ got.str ++ ", but was previously called on " ++ prev.str
  | .encodeConflict got prev =>
    "Encode called on " ++ got.str ++ ", but was previously called on " ++ prev.str
  | .formConflict name got prev =>
    "Form value \"" ++ name ++ "\" decoded as " ++ got.str
      ++ ", but was previously decoded as " ++ prev.str
  | .paramNotInRoute name =>
    "DecodeParam called on param (\"" ++ name ++ "\") not present in route definition"
  | .pathParamNotInRoute name =>
    "PathParam called on param (\"" ++ name ++ "\") not present in route definition"
  | .paramConflict name got prev =>
    "Param \"" ++ name ++ "\" decoded as " ++ got.str
      ++ ", but was previously decoded as " ++ prev.str
  | .decodeParamNonPtr => "DecodeParam called on non-pointer value"

/-- The mutable extraction state of `parseServerRoute`: the fields of the
`serverRoute` being built, `nil` (`none`) until first set. -/
structure SrvState where
  request : Option GoType
  response : Option GoType
  pathParams : List SParam
  queryParams : List (String × GoType)
deriving DecidableEq, Repr

/-- Map write for an association list (Go map assignment semantics). -/
def setAssoc {α : Type} : List (String × α) → String → α → List (String × α)
  | [], k, v => [(k, v)]
  | (k', v') :: rest, k, v =>
    if k' = k then (k, v) :: rest else (k', v') :: setAssoc rest k v

/-- The first parameter named `n`. -/
def firstParam? : List SParam → String → Option SParam
  | [], _ => none
  | p :: ps, n => if p.name = n then some p else firstParam? ps n

/-- The parameter `parseServerRoute`'s search loop ends on: the loop
`for i := range r.pathParams` keeps overwriting `sp`, so it finds the
*last* parameter with the given name. -/
def lastParam? (ps : List SParam) (n : String) : Option SParam :=
  firstParam? ps.reverse n

/-- Set the type of the first parameter named `n`. -/
def setFirstParam : List SParam → String → Option GoType → List SParam
  | [], _, _ => []
  | p :: ps, n, t =>
    if p.name = n then { p with typ := t } :: ps else p :: setFirstParam ps n t

/-- Set the type of the last parameter named `n` (through the pointer the
Go search loop keeps). -/
def setLastParam (ps : List SParam) (n : String) (t : Option GoType) : List SParam :=
  (setFirstParam ps.reverse n t).reverse

/-- One step of the `ast.Inspect` callback of `parseServerRoute` on a
recognized `jape.Context` call. A `return false` in the Go callback only
prunes that call's subtree — the walk continues with the next call — so
each step returns the (possibly unchanged) state plus its reports. -/
def stepOp (method : String) (st : SrvState) (i : Nat) : CtxOp → SrvState × List (SPos × SDiag)
  | .custom req resp =>
    let st1 := { st with request := some req, response := some resp }
    if req ≠ .untypedNil ∧ req.isPtrT = false then (st1, [(.op i, .requestNotPtr)])
    else if method = "GET" then
      if req ≠ .untypedNil then (st1, [(.op i, .shouldNotRead "GET")])
      else if resp = .untypedNil then (st1, [(.op i, .shouldWriteResponse "GET")])
      else (st1, [])
    else if method = "PUT" then
      if req = .untypedNil then (st1, [(.op i, .shouldReadRequest "PUT")])
      else if resp ≠ .untypedNil then (st1, [(.op i, .shouldNotWrite "PUT")])
      else (st1, [])
    else if method = "DELETE" then
      if req ≠ .untypedNil then (st1, [(.op i, .shouldNotRead "DELETE")])
      else if st1.response ≠ none then (st1, [(.op i, .shouldNotWrite "DELETE")])
      else (st1, [])
    else (st1, [])
  | .decode t =>
    if method = "GET" ∨ method = "DELETE" then (st, [(.op i, .shouldNotRead method)])
    else if t.isPtrT = false then (st, [(.op i, .decodeNonPtr)])
    else
      match st.request with
      | some prev =>
        if t ≠ prev then (st, [(.op i, .decodeConflict t prev)])
        else ({ st with request := some t }, [])
      | none => ({ st with request := some t }, [])
  | .encode t =>
    if method = "PUT" ∨ method = "DELETE" then (st, [(.op i, .shouldNotWrite method)])
    else
      match st.response with
      | some prev =>
        if t ≠ prev then (st, [(.op i, .encodeConflict t prev)])
        else ({ st with response := some t }, [])
      | none => ({ st with response := some t }, [])
  | .decodeForm name t =>
    match lookupAssoc st.queryParams name with
    | some prev =>
      if t ≠ prev then (st, [(.op i, .formConflict name t prev)])
      else ({ st with queryParams := setAssoc st.queryParams name t }, [])
    | none => ({ st with queryParams := setAssoc st.queryParams name t }, [])
  | .decodeParam name t =>
    match lastParam? st.pathParams name with
    | none => (st, [(.op i, .paramNotInRoute name)])
    | some sp =>
      match sp.typ with
      | some prev =>
        if prev ≠ t then (st, [(.op i, .paramConflict name t prev)])
        else if t.isPtrT = false then (st, [(.op i, .decodeParamNonPtr)])
        else ({ st with pathParams := setLastParam st.pathParams name (some t) }, [])
      | none =>
        if t.isPtrT = false then (st, [(.op i, .decodeParamNonPtr)])
        else ({ st with pathParams := setLastParam st.pathParams name (some t) }, [])
  | .pathParam name =>
    let t := GoType.ptr (.named "string")
    match lastParam? st.pathParams name with
    | none => (st, [(.op i, .pathParamNotInRoute name)])
    | some sp =>
      match sp.typ with
      | some prev =>
        if prev ≠ t then (st, [(.op i, .paramConflict name t prev)])
        else ({ st with pathParams := setLastParam st.pathParams name (some t) }, [])
      | none => ({ st with pathParams := setLastParam st.pathParams name (some t) }, [])

/-- The whole `ast.Inspect` walk: every recognized call processed in source
order, reports accumulated, `i` the index of the first op. -/
def runOps (method : String) (st : SrvState) (i : Nat) : List CtxOp → SrvState × List (SPos × SDiag)
  | [] => (st, [])
  | op :: ops =>
    let p := stepOp method st i op
    let q := runOps method p.1 (i + 1) ops
    (q.1, p.2 ++ q.2)

/-- The path-parameter scan at the top of `parseServerRoute`: every segment
starting with `:` or `*` becomes a parameter named by the rest of the
segment, type unset. -/
def initParams (path : String) : List SParam :=
  (splitOnChar '/' path).filterMap fun seg =>
    if headIs ':' seg || headIs '*' seg then some ⟨strTail seg, none⟩ else none

/-- Model of `parseServerRoute`: walk the handler ops, default unset
request/response to the untyped-nil sentinel, then apply the end-of-walk
method-shape checks, which are the only reports that abort extraction of
the route (`return nil, false`). -/
def parseServerRoute (method path : String) (ops : List CtxOp) :
    Option SRoute × List (SPos × SDiag) :=
  let st0 : SrvState := ⟨none, none, initParams path, []⟩
  let p := runOps method st0 0 ops
  let req := p.1.request.getD .untypedNil
  let resp := p.1.response.getD .untypedNil
  if method = "GET" ∧ resp = .untypedNil then
    (none, p.2 ++ [(.body, .shouldWriteResponse "GET")])
  else if method = "PUT" ∧ req = .untypedNil then
    (none, p.2 ++ [(.body, .shouldReadRequest "PUT")])
  else
    (some ⟨method, path, p.1.pathParams, p.1.queryParams, req, resp⟩, p.2)

/-! ## The Route-Call Extractor (`parseClientRoute` in `analyzer.go`) -/

/-- The expression shapes `evalConstString` handles for a client path. -/
inductive PathExpr where
  /-- An unquoted `*ast.BasicLit` string. -/
  | lit (s : String)
  /-- `+`-concatenation (`*ast.BinaryExpr` with `token.ADD`). -/
  | concat (a b : PathExpr)
  /-- A `fmt.Sprintf` call: the format expression and the static types of
  the interpolation arguments `Args[1:]`. -/
  | sprintf (f : PathExpr) (args : List GoType)
  /-- Any other `*ast.CallExpr` (folds to `"%s"`). -/
  | otherCall
  /-- An `*ast.Ident` (folds to `"%s"`). -/
  | identE
deriving DecidableEq, Repr

/-- Model of `evalConstString` (`analyzer.go`). -/
def evalConstString : PathExpr → String
  | .lit s => s
  | .concat a b => evalConstString a ++ evalConstString b
  | .sprintf f _ => evalConstString f
  | .otherCall => "%s"
  | .identE => "%s"

/-- The query-key scan of `sprintfParse`: the part of the path after the
first `?`, split on `&`; every part containing `=%` contributes the text
before that occurrence as a key (hard-coded form values are skipped). -/
def queryKeysOf (path : String) : List String :=
  match findChar '?' path.data with
  | none => []
  | some i =>
    (splitCharList '&' (path.data.drop (i + 1))).filterMap fun part =>
      (findPat2 '=' '%' part).map fun j => String.mk (part.take j)

/-- The slot-assignment loop of `sprintfParse`: the first `nPath` arguments
become positional path parameters, the rest are keyed by the extracted
query keys in order. Indexing past the key list is the Go slice-index
panic, modeled as `none`. -/
def assignArgs (nPath : Nat) (keys : List String) :
    Nat → List GoType → List GoType × List (String × GoType) →
    Option (List GoType × List (String × GoType))
  | _, [], acc => some acc
  | i, a :: rest, acc =>
    if i < nPath then assignArgs nPath keys (i + 1) rest (acc.1 ++ [a], acc.2)
    else
      match keys.get? (i - nPath) with
      | none => none
      | some k => assignArgs nPath keys (i + 1) rest (acc.1, setAssoc acc.2 k a)

/-- Model of `sprintfParse`: only a `fmt.Sprintf` path expression is
analyzed; the number of interpolation arguments must equal the `/%`-count
plus the `=%`-count of the folded path, otherwise the arity diagnostic is
reported and no parameters are recorded — but nothing else is skipped. -/
def sprintfParse (path : String) (e : PathExpr) :
    Option (List GoType × List (String × GoType)) × List Diag :=
  match e with
  | .sprintf _ args =>
    let nPath := countPat2 '/' '%' path.data
    let nForm := countPat2 '=' '%' path.data
    if args.length ≠ nPath + nForm then
      (some ([], []), [.sprintfArity nPath nForm args.length])
    else
      match assignArgs nPath (queryKeysOf path) 0 args ([], []) with
      | none => (none, [])
      | some pr => (some pr, [])
  | _ => (some ([], []), [])

/-- A client call site: a verb call `c.GET/POST/PUT/DELETE(path, args...)`
with the static types of the arguments after the path, or the
`c.Custom(method, path, req, resp)` escape form. -/
inductive ClientCallE where
  | verb (name : String) (pathE : PathExpr) (args : List GoType)
  | customCall (methodE pathE : PathExpr) (reqT respT : GoType)
deriving DecidableEq, Repr

/-- Model of `parseClientRoute`. The Go function never returns `nil`: the
parsed route is produced even when `sprintfParse` reported an arity
mismatch (only the modeled index panic yields `none`). The `-cprefix`
flag keeps its default `""`. -/
def parseClientRoute (c : ClientCallE) : Option CRoute × List Diag :=
  match c with
  | .customCall mE pE reqT respT =>
    let path := evalConstString pE
    match sprintfParse path pE with
    | (none, ds) => (none, ds)
    | (some pr, ds) =>
      (some ⟨evalConstString mE, path, pr.1, pr.2, some reqT, some respT⟩, ds)
  | .verb name pE args =>
    let path := evalConstString pE
    let req := if name = "POST" ∨ name = "PUT" then args.get? 0 else none
    let resp :=
      if name = "GET" then args.get? 0
      else if name = "POST" then args.get? 1
      else none
    match sprintfParse path pE with
    | (none, ds) => (none, ds)
    | (some pr, ds) => (some ⟨name, path, pr.1, pr.2, req, resp⟩, ds)

/-! ## The Single-Response-Write Checker (`checkSingleResponse` in `analyzer.go`)

The handler's control-flow graph (`golang.org/x/tools/go/cfg`) is embedded
as a list of blocks; a block holds its nodes (statements and condition
expressions, in order, each tagged with a position identifier) and the
indices of its successor blocks. AST expressions are embedded with just
enough structure for `isWrite`, `containsWrite` and `checkCond`:
`jcCall m arg` is a call `jc.m(...)` on a `jape.Context` receiver,
`nilLit` an expression of type untyped nil, `binop` a binary expression
with one of the four operators the checker inspects, and `node`/`leaf`
any other AST node with its children. -/

inductive BOp where
  | eql
  | neq
  | land
  | lor
deriving DecidableEq, Repr

inductive CExpr where
  /-- A call `jc.m(...)` whose receiver has type `go.sia.tech/jape.Context`;
  `arg` stands for the call's argument subtrees. -/
  | jcCall (m : String) (arg : CExpr)
  /-- A childless node (identifier, literal, ...). -/
  | leaf
  /-- An expression whose static type is untyped nil. -/
  | nilLit
  /-- `*ast.BinaryExpr` with `==`, `!=`, `&&` or `||`. -/
  | binop (op : BOp) (x y : CExpr)
  /-- Any other AST node with children `a` and `b`. -/
  | node (a b : CExpr)
deriving DecidableEq, Repr

/-- The response-writing `jape.Context` methods recognized by `isWrite`. -/
def writeMethod (m : String) : Bool :=
  m = "Error" || m = "Check" || m = "Decode" || m = "DecodeParam"
    || m = "DecodeForm" || m = "Encode"

/-- Model of `isWrite`: the node itself is a recognized write call. -/
def isWrite : CExpr → Bool
  | .jcCall m _ => writeMethod m
  | _ => false

/-- Model of `containsWrite`: some descendant (or the node itself) is a
write call (`ast.Inspect` search). -/
def containsWrite : CExpr → Bool
  | .jcCall m arg => writeMethod m || containsWrite arg
  | .leaf => false
  | .nilLit => false
  | .binop _ x y => containsWrite x || containsWrite y
  | .node a b => containsWrite a || containsWrite b

/-- The mutable state of the `checkCond` closure: `cmp` (`==`/`!=`),
`op` (`&&`/`||`), both `token.Token` values zero until first set, and
`numConds`. -/
structure CondSt where
  cmp : Option BOp
  lop : Option BOp
  numConds : Nat
deriving DecidableEq, Repr

/-- Model of the recursive `checkCond` closure, with its mutated variables
threaded explicitly. A comparison leaf is accepted only as
`writeCall <op> nil`; mixed comparison or connective operators fail. -/
def checkCond : CExpr → CondSt → CondSt × Bool
  | .binop bop x y, st =>
    if bop = .eql ∨ bop = .neq then
      if st.cmp = none ∨ st.cmp = some bop then
        ({ st with cmp := some bop, numConds := st.numConds + 1 },
         isWrite x && decide (y = CExpr.nilLit))
      else (st, false)
    else
      if st.lop = none ∨ st.lop = some bop then
        let st1 := { st with lop := some bop }
        let p := checkCond x st1
        if p.2 then checkCond y p.1 else (p.1, false)
      else (st, false)
  | _, st => (st, false)

/-- The diagnostics `checkSingleResponse` can report. Positions are the
node tags; `multipleResponses pos prevPos` is "Handler writes multiple
responses (previous write at %v)" reported at `pos`. -/
inductive CDiag where
  | multipleResponses (pos prevPos : Nat)
  /-- "Weird condition expression; please stick to either
  (x != nil || y != nil || ...) or (x == nil && y == nil && ...)" -/
  | weirdCondition (pos : Nat)
  /-- "Condition may write multiple responses" -/
  | condMultiple (pos : Nat)
deriving DecidableEq, Repr

/-- A CFG block: nodes (position tag, expression) in order, successor
block indices. -/
structure CBlock where
  nodes : List (Nat × CExpr)
  succs : List Nat
deriving DecidableEq, Repr

/-- The node loop at the top of `checkBlock`: thread `prevWrite` through
the block's nodes; a node containing a write while one is already pending
reports and makes `checkBlock` return immediately. -/
def scanNodes : List (Nat × CExpr) → Option (Nat × CExpr) →
    Option (Nat × CExpr) ⊕ CDiag
  | [], pw => .inl pw
  | n :: ns, pw =>
    if containsWrite n.2 then
      match pw with
      | some p => .inr (.multipleResponses n.1 p.1)
      | none => scanNodes ns (some n)
    else scanNodes ns pw

/-- The recursive `checkBlock` traversal, as a depth-first worklist of
(block index, incoming prevWrite) tasks. The visited set is the Go
`map[*cfg.Block]bool`: it is keyed by the block alone, so a task for an
already-visited block is dropped regardless of its incoming write state.
`fuel` only bounds the recursion; `fuelFor` below always suffices because
every non-skipped task marks a new block visited. -/
def checkBlocks (g : List CBlock) :
    Nat → List Nat → List (Nat × Option (Nat × CExpr)) →
    List Nat × List CDiag
  | 0, v, _ => (v, [])
  | _ + 1, v, [] => (v, [])
  | fuel + 1, v, (idx, pw) :: rest =>
    if idx ∈ v then checkBlocks g fuel v rest
    else
      let v1 := idx :: v
      match g.get? idx with
      | none => checkBlocks g fuel v1 rest
      | some b =>
        match scanNodes b.nodes pw with
        | .inr d =>
          let q := checkBlocks g fuel v1 rest
          (q.1, d :: q.2)
        | .inl pw1 =>
          if b.succs.length = 2 ∧ b.nodes ≠ [] then
            let cond := b.nodes.getLastD (0, .leaf)
            let s0 := b.succs.headD 0
            let s1 := (b.succs.drop 1).headD 0
            if containsWrite cond.2 = false then
              checkBlocks g fuel v1 ((s0, pw1) :: (s1, pw1) :: rest)
            else
              let pc := checkCond cond.2 ⟨none, none, 0⟩
              if pc.2 = false then
                let q := checkBlocks g fuel v1 rest
                (q.1, .weirdCondition cond.1 :: q.2)
              else if 1 < pc.1.numConds ∧
                  ((pc.1.cmp = some .eql ∧ pc.1.lop ≠ some .land) ∨
                   (pc.1.cmp = some .neq ∧ pc.1.lop ≠ some .lor)) then
                let q := checkBlocks g fuel v1 rest
                (q.1, .condMultiple cond.1 :: q.2)
              else if pc.1.cmp = some .neq then
                checkBlocks g fuel v1 ((s0, pw1) :: (s1, none) :: rest)
              else
                checkBlocks g fuel v1 ((s0, none) :: (s1, pw1) :: rest)
          else
            checkBlocks g fuel v1 ((b.succs.map fun s => (s, pw1)) ++ rest)

/-- An upper bound on the number of worklist pops: every block is processed
at most once, contributing at most its successor count of new tasks on top
of the `g.length` driver tasks. -/
def fuelFor (g : List CBlock) : Nat :=
  g.length + g.foldr (fun b a => b.succs.length + a) 0 + 1

/-- Model of `checkSingleResponse` (minus CFG construction): the driver
loop `for _, b := range g.Blocks { checkBlock(b, nil) }`, sharing one
visited set. -/
def checkSingleResponse (g : List CBlock) : List CDiag :=
  (checkBlocks g (fuelFor g) [] ((List.range g.length).map fun i => (i, none))).2

/-- Modelled from the spec: the same traversal with the visited set keyed
by the `(block, accumulated-write-state)` pair, as §4.5 and the design
notes describe ("a visited set keyed by that pair (not just the block)").
The repository's code does not contain this variant; it exists to compare
the spec's stated mechanism against `checkBlocks`. -/
def checkBlocksPair (g : List CBlock) :
    Nat → List (Nat × Option (Nat × CExpr)) →
    List (Nat × Option (Nat × CExpr)) →
    List (Nat × Option (Nat × CExpr)) × List CDiag
  | 0, v, _ => (v, [])
  | _ + 1, v, [] => (v, [])
  | fuel + 1, v, (idx, pw) :: rest =>
    if (idx, pw) ∈ v then checkBlocksPair g fuel v rest
    else
      let v1 := (idx, pw) :: v
      match g.get? idx with
      | none => checkBlocksPair g fuel v1 rest
      | some b =>
        match scanNodes b.nodes pw with
        | .inr d =>
          let q := checkBlocksPair g fuel v1 rest
          (q.1, d :: q.2)
        | .inl pw1 =>
          if b.succs.length = 2 ∧ b.nodes ≠ [] then
            let cond := b.nodes.getLastD (0, .leaf)
            let s0 := b.succs.headD 0
            let s1 := (b.succs.drop 1).headD 0
            if containsWrite cond.2 = false then
              checkBlocksPair g fuel v1 ((s0, pw1) :: (s1, pw1) :: rest)
            else
              let pc := checkCond cond.2 ⟨none, none, 0⟩
              if pc.2 = false then
                let q := checkBlocksPair g fuel v1 rest
                (q.1, .weirdCondition cond.1 :: q.2)
              else if 1 < pc.1.numConds ∧
                  ((pc.1.cmp = some .eql ∧ pc.1.lop ≠ some .land) ∨
                   (pc.1.cmp = some .neq ∧ pc.1.lop ≠ some .lor)) then
                let q := checkBlocksPair g fuel v1 rest
                (q.1, .condMultiple cond.1 :: q.2)
              else if pc.1.cmp = some .neq then
                checkBlocksPair g fuel v1 ((s0, pw1) :: (s1, none) :: rest)
              else
                checkBlocksPair g fuel v1 ((s0, none) :: (s1, pw1) :: rest)
          else
            checkBlocksPair g fuel v1 ((b.succs.map fun s => (s, pw1)) ++ rest)

/-- Modelled from the spec: the driver for the pair-keyed traversal. The
fuel is ample for the concrete graphs it is evaluated on. -/
def checkSingleResponsePair (g : List CBlock) : List CDiag :=
  (checkBlocksPair g ((g.length + 1) * fuelFor g) []
    ((List.range g.length).map fun i => (i, none))).2

/-! ## The HTTP runtime layer (`server.go`)

The runtime claims concern `Context.DecodeLimit`/`Context.Decode` and
`Context.DecodeForm`. The Go standard-library collaborators are modeled at
the interface the jape code observes: `http.MaxBytesReader` + the JSON
decoder either succeed, fail with `*http.MaxBytesError` (when the body is
larger than the configured limit), or fail with a plain decode error;
`Request.FormValue` is a string map lookup defaulting to `""`. A returned
`some (msg, status)` is the error that `c.Error` writes to the response
body (and returns); `none` is a nil error with nothing written. -/

inductive JSONReadErr where
  /-- `*http.MaxBytesError` surfaced through the JSON decoder. -/
  | maxBytes
  /-- Any other JSON decode failure. -/
  | malformed
deriving DecidableEq, Repr

/-- Modelled collaborator: reading the whole request body of `size` bytes
through `http.MaxBytesReader(w, body, n)` into the JSON decoder fails with
`*http.MaxBytesError` when the body exceeds `n` bytes, and otherwise fails
iff the body is not well-formed JSON for the target type. -/
def readBody (size n : Nat) (wellFormed : Bool) : Option JSONReadErr :=
  if n < size then some .maxBytes
  else if wellFormed then none
  else some .malformed

namespace Context

/-- Model of `Context.DecodeLimit`: a `*http.MaxBytesError` becomes the
distinct "request body too large" error with status 413
(`http.StatusRequestEntityTooLarge`); any other decode failure becomes
"couldn't decode request type (%T): %w" with status 400
(`http.StatusBadRequest`). `typeName` is how `%T` prints the target and
`jsonErrMsg` the wrapped decoder error. -/
def DecodeLimit (typeName jsonErrMsg : String) (size : Nat) (wellFormed : Bool)
    (n : Nat) : Option (String × Nat) :=
  match readBody size n wellFormed with
  | some .maxBytes => some ("request body too large", 413)
  | some .malformed =>
    some ("couldn't decode request type (" ++ typeName ++ "): " ++ jsonErrMsg, 400)
  | none => none

/-- Model of `Context.Decode`: `DecodeLimit` with the default 10 MB limit
(`1e7`). -/
def Decode (typeName jsonErrMsg : String) (size : Nat) (wellFormed : Bool) :
    Option (String × Nat) :=
  DecodeLimit typeName jsonErrMsg size wellFormed 10000000

/-- Modelled collaborator `Request.FormValue`: the form as a key/value
association list, missing keys reading as `""`. -/
def formValue (form : List (String × String)) (key : String) : String :=
  (lookupAssoc form key).getD ""

/-- Model of `Context.DecodeForm`. The type switch on the target is
abstracted as `parse`, returning the updated target value and an optional
error message (some branches, like `strconv.Atoi`, assign the target even
on failure). Result: the error written-and-returned (if any), the final
target value, and whether a decode was attempted at all. An empty form
value returns `nil` immediately: no decode, no write, target untouched. -/
def DecodeForm {α : Type} (form : List (String × String)) (key : String)
    (v : α) (parse : String → α × Option String) :
    Option (String × Nat) × α × Bool :=
  let value := formValue form key
  if value = "" then (none, v, false)
  else
    let p := parse value
    match p.2 with
    | some e => (some ("invalid form value \"" ++ key ++ "\": " ++ e, 400), p.1, true)
    | none => (none, p.1, true)

end Context

/-- The server route of the C2 end-to-end scenario: key
`"POST /hello/:name"`, handler `jc.Decode(&greeting); jc.Encode(s)` with
`greeting, s : string`; the `name` parameter is never decoded. -/
def srHello : SRoute :=
  ⟨"POST", "/hello/:name", [⟨"name", none⟩], [],
   .ptr (.named "string"), .named "string"⟩

/-- The client call of the C2 scenario,
`c.POST("/hello/"+name, greeting, &respInt)`: the concatenated path folds
to `/hello/%s` and (not being a Sprintf call) records no path
parameters. -/
def crHello : CRoute :=
  ⟨"POST", "/hello/%s", [], [],
   some (.named "string"), some (.ptr (.named "int"))⟩

/-- The CFG of the handler
`func(jc jape.Context) { if jc.Check(m, err) != nil { return }; jc.Encode(v) }`:
block 0 holds the condition (node 0, the write call compared against nil)
and branches to block 1 (the `return`) and block 2 (the fall-through
Encode at node 1). -/
def gCondCheck : List CBlock :=
  [⟨[(0, .binop .neq (.jcCall "Check" .leaf) .nilLit)], [1, 2]⟩,
   ⟨[], []⟩,
   ⟨[(1, .jcCall "Encode" .leaf)], []⟩]

/-- The CFG of the handler
`func(jc jape.Context) { if err := jc.Check(m, e); err != nil { return }; jc.Encode(v) }`:
block 0 holds the init assignment (node 0, containing the Check call) and
the condition `err != nil` (node 1, containing no write call), then
branches to block 1 (the `return`) and block 2 (the Encode at node 2). -/
def gErrAssign : List CBlock :=
  [⟨[(0, .node (.jcCall "Check" .leaf) .leaf), (1, .binop .neq .leaf .nilLit)], [1, 2]⟩,
   ⟨[], []⟩,
   ⟨[(2, .jcCall "Encode" .leaf)], []⟩]

/-- A four-block diamond whose no-write arm is listed first: block 0 (a
non-write condition at node 0) branches to block 2 (empty) and then block
1 (which writes at node 1); both join at block 3, which writes at node 3.
The traversal reaches block 3 with no pending write first (through block
2), then again through block 1 with a pending write. -/
def gDiff : List CBlock :=
  [⟨[(0, .leaf)], [2, 1]⟩,
   ⟨[(1, .jcCall "Error" .leaf)], [3]⟩,
   ⟨[], [3]⟩,
   ⟨[(3, .jcCall "Encode" .leaf)], []⟩]

/-- The four "method shape" diagnostics of `parseServerRoute`. -/
def isShapeDiag : SDiag → Bool
  | .shouldNotRead _ => true
  | .shouldWriteResponse _ => true
  | .shouldReadRequest _ => true
  | .shouldNotWrite _ => true
  | _ => false

/-- The ops that can set or report on the `request` field: `Decode` and
`Custom`. -/
def isReqOp : CtxOp → Bool
  | .decode _ => true
  | .custom _ _ => true
  | _ => false

/-- Recognizes the "Decode called on X, but was previously called on Y"
diagnostic. -/
def isDecodeConflict : SDiag → Bool
  | .decodeConflict _ _ => true
  | _ => false

/-- The key/route content of a route-table entry (everything except the
mutable `seen` flag). -/
def pairOf (e : RouteEntry) : String × SRoute := (e.key, e.route)

/-- The keys of the route table. -/
def keysOf (rs : List RouteEntry) : List String := rs.map (·.key)

/-- Occurrences of one exact diagnostic in a report list. -/
def countDiag (ds : List Diag) (d : Diag) : Nat := ds.countP (fun x => x = d)

/-- The per-field comparison diagnostics of `compareRoute`. -/
def isCompareDiag : Diag → Bool
  | .wrongRequestType _ _ _ => true
  | .wrongResponseType _ _ _ => true
  | .tooFewPathParams _ => true
  | .wrongPathParamType _ _ _ => true
  | .undefinedQueryParam _ => true
  | .wrongQueryParamType _ _ _ => true
  | _ => false

/-- Recognizes the "Client references %v multiple times" diagnostic. -/
def isMultRefs : Diag → Bool
  | .multipleRefs _ => true
  | _ => false

/-- The entry built by `run` for a parsed server route. -/
def mkEntry (r : SRoute) : RouteEntry := ⟨r.normalizedRoute, r, false⟩

/-! ## Helper lemmas -/

theorem dataAppend (s t : String) : (s ++ t).data = s.data ++ t.data := by
  cases s
  cases t
  rfl

theorem map_normSeg_of_segsMatch : ∀ ss cs : List String, segsMatch ss cs = true →
    ss.map (fun seg => if headIs ':' seg || headIs '*' seg then "%s" else seg)
      = cs.map (fun seg => if headIs '%' seg && seg.data.length > 1 then "%s" else seg)
  | [], [], _ => rfl
  | [], _ :: _, h => by simp [segsMatch] at h
  | _ :: _, [], h => by simp [segsMatch] at h
  | s :: ss, c :: cs, h => by
    have h1 : segMatch s c = true ∧ segsMatch ss cs = true := by
      simpa [segsMatch, Bool.and_eq_true] using h
    have hrest := map_normSeg_of_segsMatch ss cs h1.2
    have hm := h1.1
    rw [segMatch, Bool.or_eq_true] at hm
    rcases hm with hm | hm
    · rw [Bool.and_eq_true, Bool.and_eq_true] at hm
      obtain ⟨⟨hcs, hns⟩, hnc⟩ := hm
      rw [Bool.not_eq_true'] at hns hnc
      have hcs' : c = s := by simpa using hcs
      subst hcs'
      rw [List.map_cons, List.map_cons, hrest]
      simp only [hns, hnc]
    · rw [Bool.and_eq_true] at hm
      obtain ⟨hsig, hc⟩ := hm
      have hc' : c = "%s" := by simpa using hc
      subst hc'
      rw [List.map_cons, List.map_cons, hrest]
      simp only [hsig, ite_self, if_true]

/-! ## C1 -/

/-- C1: For a server route template and a client path that was
constant-folded to a format string describing the same logical endpoint —
segment for segment, every non-parameter segment identical (and not itself
shaped like a placeholder) and every `:`/`*` parameter segment matched by a
`"%s"` placeholder, after stripping any `?`-query suffix on the client
side — the server normalizer and the client normalizer produce
character-for-character equal keys. In particular, server path
`/foo/:bar/baz` with method GET and client format string `/foo/%s/baz`
both yield `"GET /foo/%s/baz"`. -/
theorem C1_normalized_keys_agree :
    (∀ method ps pc : String,
        segsMatch (splitOnChar '/' ps) (splitOnChar '/' (stripQuery pc)) = true →
        serverNormalize method ps = clientNormalize method pc)
    ∧ serverNormalize "GET" "/foo/:bar/baz" = "GET /foo/%s/baz"
    ∧ clientNormalize "GET" "/foo/%s/baz" = "GET /foo/%s/baz" := by
  refine ⟨?_, by decide, by decide⟩
  intro method ps pc h
  unfold serverNormalize clientNormalize
  rw [map_normSeg_of_segsMatch _ _ h]

/-- Witness for C1: the general part applied to `/api/:id` against the
formatted client path `/api/%s?limit=%s` (with a query suffix). -/
theorem C1_normalized_keys_agree_witness :
    serverNormalize "GET" "/api/:id" = clientNormalize "GET" "/api/%s?limit=%s" :=
  C1_normalized_keys_agree.1 "GET" "/api/:id" "/api/%s?limit=%s" (by decide)

/-! ## C9 -/

/-- C9: A request body larger than the configured limit decoded through
`Context.DecodeLimit` yields the distinct "request body too large" error
with status 413; a body within the limit that fails JSON decoding yields
the generic "couldn't decode request type" error with status 400; the two
messages (and statuses) are always distinct; and `Context.Decode` is
`DecodeLimit` with the default 10 MB limit. -/
theorem C9_decode_limit_errors :
    (∀ (tn em : String) (size n : Nat) (wf : Bool), n < size →
        Context.DecodeLimit tn em size wf n = some ("request body too large", 413))
    ∧ (∀ (tn em : String) (size n : Nat), size ≤ n →
        Context.DecodeLimit tn em size false n
          = some ("couldn't decode request type (" ++ tn ++ "): " ++ em, 400))
    ∧ (∀ tn em : String,
        ("request body too large" : String)
          ≠ "couldn't decode request type (" ++ tn ++ "): " ++ em)
    ∧ (413 : Nat) ≠ 400
    ∧ ∀ (tn em : String) (size : Nat) (wf : Bool),
        Context.Decode tn em size wf = Context.DecodeLimit tn em size wf 10000000 := by
  refine ⟨?_, ?_, ?_, by decide, fun _ _ _ _ => rfl⟩
  · intro tn em size n wf h
    simp [Context.DecodeLimit, readBody, h]
  · intro tn em size n h
    simp [Context.DecodeLimit, readBody, Nat.not_lt.mpr h]
  · intro tn em heq
    have h2 := congrArg (fun s : String => s.data.length) heq
    simp only [dataAppend, List.length_append] at h2
    have e1 : ("request body too large" : String).data.length = 22 := rfl
    have e2 : ("couldn't decode request type (" : String).data.length = 30 := rfl
    have e3 : ("): " : String).data.length = 3 := rfl
    rw [e1, e2, e3] at h2
    omega

/-- Witness for C9: an 11-byte body against a 10-byte limit is rejected as
too large; a well-bounded malformed body gets the generic 400 error. -/
theorem C9_decode_limit_errors_witness :
    Context.DecodeLimit "int" "e" 11 true 10 = some ("request body too large", 413)
    ∧ Context.DecodeLimit "int" "e" 5 false 10
        = some ("couldn't decode request type (" ++ "int" ++ "): " ++ "e", 400) :=
  ⟨C9_decode_limit_errors.1 "int" "e" 11 10 true (by decide),
   C9_decode_limit_errors.2.1 "int" "e" 5 10 (by decide)⟩

/-! ## C10 -/

/-- C10: For every form and key and every target value, when the request's
form value for that key is the empty string, `Context.DecodeForm` returns
nil, writes no error to the response, attempts no decode, and leaves the
target value unchanged. -/
theorem C10_decode_form_empty :
    ∀ (α : Type) (form : List (String × String)) (key : String) (v : α)
      (parse : String → α × Option String),
      Context.formValue form key = "" →
      Context.DecodeForm form key v parse = (none, v, false) := by
  intro α form key v parse h
  simp [Context.DecodeForm, h]

/-- Witness for C10: a key present with an empty value (and a parser that
would both error and clobber the target if it ran). -/
theorem C10_decode_form_empty_witness :
    Context.DecodeForm [("k", "")] "k" (37 : Nat) (fun _ => (0, some "boom"))
      = (none, 37, false) :=
  C10_decode_form_empty Nat [("k", "")] "k" 37 (fun _ => (0, some "boom")) (by decide)

/-! ## C7 -/

/-- C7 counterexample: at the Sprintf call
`fmt.Sprintf("/foo/%s", a, b)` (one path slot, two arguments) the arity
diagnostic is reported, but the call is NOT skipped: `parseClientRoute`
still returns a client route (with no recorded parameters), refuting "the
call is skipped (it does not participate in further parity checking)". -/
theorem C7_arity_counterexample :
    (parseClientRoute (.verb "GET" (.sprintf (.lit "/foo/%s")
        [.named "int", .named "int"]) [.ptr (.named "string")])).2
      = [.sprintfArity 1 0 2]
    ∧ (parseClientRoute (.verb "GET" (.sprintf (.lit "/foo/%s")
        [.named "int", .named "int"]) [.ptr (.named "string")])).1 ≠ none := by
  decide

/-- C7 (amended): when the number of Sprintf arguments differs from the
`/%`-count plus `=%`-count of the folded template, the extractor reports
exactly the "route contains (N path + M form) = N+M parameters, but K
arguments are supplied" diagnostic and records no path or query
parameters — but the call is not skipped: the route is still returned and
participates in parity checking, where (for instance) an unmatched key
yields its "route not defined" diagnostic. -/
theorem C7_sprintf_arity :
    (∀ (name s : String) (fargs args : List GoType),
        fargs.length ≠ countPat2 '/' '%' s.data + countPat2 '=' '%' s.data →
        parseClientRoute (.verb name (.sprintf (.lit s) fargs) args)
          = (some ⟨name, s, [], [],
               (if name = "POST" ∨ name = "PUT" then args.get? 0 else none),
               (if name = "GET" then args.get? 0
                else if name = "POST" then args.get? 1 else none)⟩,
             [.sprintfArity (countPat2 '/' '%' s.data)
               (countPat2 '=' '%' s.data) fargs.length]))
    ∧ ∀ cr : CRoute, runParity [] [cr] = [.routeNotDefined cr] := by
  constructor
  · intro name s fargs args h
    simp [parseClientRoute, sprintfParse, evalConstString, h]
  · intro cr
    simp [runParity, buildRoutes, processCalls, processOne, lookupRoute, finalize]

/-- Witness for C7: a PUT whose template has one path slot but zero
Sprintf arguments. -/
theorem C7_sprintf_arity_witness :
    parseClientRoute (.verb "PUT" (.sprintf (.lit "/x/%s") []) [.named "int"])
      = (some ⟨"PUT", "/x/%s", [], [], some (.named "int"), none⟩,
         [.sprintfArity 1 0 0]) := by
  have h := C7_sprintf_arity.1 "PUT" "/x/%s" [] [.named "int"] (by decide)
  simpa using h

/-! ## C2 -/

/-- C2 counterexample: in the end-to-end scenario the diagnostic claimed —
"Client has wrong response type for POST /hello/:name (got int, should be
string)" — is not among the messages the run produces (the code formats
the undereferenced pointer types, and a second diagnostic appears). -/
theorem C2_response_message_counterexample :
    "Client has wrong response type for POST /hello/:name (got int, should be string)"
        ∉ (runParity [srHello] [crHello]).map Diag.render
    ∧ (runParity [srHello] [crHello]).map Diag.render
        ≠ ["Client has wrong response type for POST /hello/:name (got int, should be string)"] := by
  decide

/-- C2 (amended): the parity checker compares the client's request type
against the pointee of the server's recorded request type and the client's
response type against a pointer to the server's response type (untyped nil
matching untyped nil when no response is declared); in the
`POST /hello/:name` scenario the run produces exactly two diagnostics:
"Client has wrong response type for POST /hello/:name (got *int, should be
*string)" — `got`/`should be` are the undereferenced pointer types —
followed by "Client has too few path parameters for POST /hello/:name"
(the concatenated path records no client path parameters). -/
theorem C2_parity_type_comparison :
    (∀ (sr : SRoute) (got : GoType),
        compareRequest sr (some got) = [] ↔ got = elem sr.request)
    ∧ (∀ (sr : SRoute) (got : GoType),
        compareResponse sr (some got) = [] ↔ got = ptrTo sr.response)
    ∧ (∀ sr : SRoute, sr.response = .untypedNil →
        compareResponse sr (some .untypedNil) = [])
    ∧ parseServerRoute "POST" "/hello/:name"
        [.decode (.ptr (.named "string")), .encode (.named "string")]
        = (some srHello, [])
    ∧ parseClientRoute (.verb "POST" (.concat (.lit "/hello/") .identE)
        [.named "string", .ptr (.named "int")]) = (some crHello, [])
    ∧ (runParity [srHello] [crHello]).map Diag.render
        = ["Client has wrong response type for POST /hello/:name (got *int, should be *string)",
           "Client has too few path parameters for POST /hello/:name"] := by
  refine ⟨?_, ?_, ?_, by decide, by decide, by decide⟩
  · intro sr got
    by_cases hc : got = elem sr.request <;> simp [compareRequest, hc]
  · intro sr got
    by_cases hc : got = ptrTo sr.response <;> simp [compareResponse, hc]
  · intro sr h
    simp [compareResponse, h, ptrTo]

/-- Witness for C2: the untyped-nil clause applied to a route that
declares no response. -/
theorem C2_parity_type_comparison_witness :
    compareResponse ⟨"GET", "/x", [], [], .untypedNil, .untypedNil⟩
      (some .untypedNil) = [] :=
  C2_parity_type_comparison.2.2.1 ⟨"GET", "/x", [], [], .untypedNil, .untypedNil⟩ rfl

/-! ## C5 and C6: concrete control-flow graphs -/

theorem scanNodes_append_no_write (l rest : List (Nat × CExpr))
    (pw : Option (Nat × CExpr)) (h : ∀ n ∈ l, containsWrite n.2 = false) :
    scanNodes (l ++ rest) pw = scanNodes rest pw := by
  induction l with
  | nil => rfl
  | cons n ns ih =>
    have hn := h n (by simp)
    rw [List.cons_append]
    simp only [scanNodes, hn]
    exact ih (fun m hm => h m (by simp [hm]))

theorem scanNodes_cons_write_none (n : Nat × CExpr) (ns : List (Nat × CExpr))
    (h : containsWrite n.2 = true) :
    scanNodes (n :: ns) none = scanNodes ns (some n) := by
  simp [scanNodes, h]

theorem scanNodes_cons_write_some (n p : Nat × CExpr) (ns : List (Nat × CExpr))
    (h : containsWrite n.2 = true) :
    scanNodes (n :: ns) (some p) = Sum.inr (.multipleResponses n.1 p.1) := by
  simp [scanNodes, h]

/-- C5 counterexample: for the handler
`if err := jc.Check(...); err != nil { return }` followed by exactly one
further write (`gErrAssign`), the checker reports one "multiple responses"
diagnostic, not zero: the init assignment carries the write, the condition
`err != nil` contains no write call, so both branches inherit the pending
write and the fall-through Encode reports against it. -/
theorem C5_check_idiom_counterexample :
    checkSingleResponse gErrAssign ≠ []
    ∧ checkSingleResponse gErrAssign = [.multipleResponses 2 0] := by
  decide

/-- C5 (amended): two response-writing calls that are sequential and
unconditional in one block are reported with a single "multiple responses"
diagnostic naming both positions; and the handler in which the write call
is compared against nil directly in the condition —
`if jc.Check(...) != nil { return }` — followed by exactly one further
write produces zero diagnostics (the error-return branch keeps the write,
the fall-through branch continues with no write recorded). The variant
binding the result first (`if err := jc.Check(...); err != nil`) is
reported, as the counterexample shows. -/
theorem C5_single_response :
    (∀ (l₁ l₂ l₃ : List (Nat × CExpr)) (p₁ p₂ : Nat) (w₁ w₂ : CExpr),
        (∀ n ∈ l₁, containsWrite n.2 = false) →
        (∀ n ∈ l₂, containsWrite n.2 = false) →
        containsWrite w₁ = true → containsWrite w₂ = true →
        checkSingleResponse [⟨l₁ ++ (p₁, w₁) :: (l₂ ++ (p₂, w₂) :: l₃), []⟩]
          = [.multipleResponses p₂ p₁])
    ∧ checkSingleResponse gCondCheck = [] := by
  constructor
  · intro l₁ l₂ l₃ p₁ p₂ w₁ w₂ h₁ h₂ hw₁ hw₂
    have hscan : scanNodes (l₁ ++ (p₁, w₁) :: (l₂ ++ (p₂, w₂) :: l₃)) none
        = Sum.inr (.multipleResponses p₂ p₁) := by
      rw [scanNodes_append_no_write _ _ _ h₁,
        scanNodes_cons_write_none _ _ hw₁,
        scanNodes_append_no_write _ _ _ h₂,
        scanNodes_cons_write_some _ _ _ hw₂]
    simp only [checkSingleResponse, fuelFor, checkBlocks]
    simp [checkBlocks, hscan]
  · decide

/-- Witness for C5: the general part applied to a block
`jc.Encode(a); jc.Encode(b)` — two sequential unconditional writes. -/
theorem C5_single_response_witness :
    checkSingleResponse
        [⟨[(4, .jcCall "Encode" .leaf), (7, .jcCall "Encode" .leaf)], []⟩]
      = [.multipleResponses 7 4] := by
  have h := C5_single_response.1 [] [] [] 4 7
    (.jcCall "Encode" .leaf) (.jcCall "Encode" .leaf)
    (by intro n hn; cases hn) (by intro n hn; cases hn) (by decide) (by decide)
  simpa using h

/-- C6 counterexample: the visited set is NOT keyed by the
(block, accumulated-write-state) pair: on `gDiff` the code's block-keyed
traversal and the spec's pair-keyed traversal disagree. -/
theorem C6_visited_keying_counterexample :
    checkSingleResponse gDiff ≠ checkSingleResponsePair gDiff := by
  decide

/-- C6 (amended): the visited set of `checkSingleResponse` is keyed by the
block alone, so a block first analyzed with no pending write (block 3 of
`gDiff`, reached through the empty arm) is skipped when later reached with
a pending write: the write-then-write path through block 1 goes unreported
(the run yields no diagnostics), whereas the pair-keyed traversal the spec
describes re-analyzes block 3 and reports the multiple write. -/
theorem C6_visited_by_block :
    checkSingleResponse gDiff = []
    ∧ checkSingleResponsePair gDiff = [.multipleResponses 3 1] := by
  decide

/-! ## C4: method-shape rules of the Route-Definition Extractor -/

theorem runOps_cons (method : String) (st : SrvState) (i : Nat) (op : CtxOp)
    (ops : List CtxOp) :
    runOps method st i (op :: ops)
      = ((runOps method (stepOp method st i op).1 (i + 1) ops).1,
         (stepOp method st i op).2
           ++ (runOps method (stepOp method st i op).1 (i + 1) ops).2) := rfl

theorem runOps_append : ∀ (l₁ l₂ : List CtxOp) (method : String) (st : SrvState) (i : Nat),
    runOps method st i (l₁ ++ l₂)
      = ((runOps method (runOps method st i l₁).1 (i + l₁.length) l₂).1,
         (runOps method st i l₁).2
           ++ (runOps method (runOps method st i l₁).1 (i + l₁.length) l₂).2)
  | [], l₂, m, st, i => by simp [runOps]
  | op :: ops, l₂, m, st, i => by
    rw [List.cons_append, runOps_cons, runOps_append ops l₂ m (stepOp m st i op).1 (i + 1),
      runOps_cons]
    have harith : i + 1 + ops.length = i + (op :: ops).length := by
      simp [List.length_cons]
      omega
    rw [harith]
    simp [List.append_assoc]

theorem mem_runOps_middle (method : String) (st : SrvState) (i : Nat)
    (l₁ : List CtxOp) (op : CtxOp) (l₂ : List CtxOp) (d : SPos × SDiag)
    (h : d ∈ (stepOp method (runOps method st i l₁).1 (i + l₁.length) op).2) :
    d ∈ (runOps method st i (l₁ ++ op :: l₂)).2 := by
  rw [runOps_append l₁ (op :: l₂), runOps_cons]
  simp only [List.mem_append]
  exact Or.inr (Or.inl h)

theorem mem_parse_diags (method path : String) (ops : List CtxOp) (d : SPos × SDiag)
    (h : d ∈ (runOps method ⟨none, none, initParams path, []⟩ 0 ops).2) :
    d ∈ (parseServerRoute method path ops).2 := by
  simp only [parseServerRoute]
  split
  · simp [h]
  · split
    · simp [h]
    · simpa using h

theorem stepOp_get_decode (st : SrvState) (i : Nat) (t : GoType) :
    stepOp "GET" st i (.decode t) = (st, [(.op i, .shouldNotRead "GET")]) := by
  simp [stepOp]

theorem stepOp_delete_decode (st : SrvState) (i : Nat) (t : GoType) :
    stepOp "DELETE" st i (.decode t) = (st, [(.op i, .shouldNotRead "DELETE")]) := by
  simp [stepOp]

theorem stepOp_put_encode (st : SrvState) (i : Nat) (t : GoType) :
    stepOp "PUT" st i (.encode t) = (st, [(.op i, .shouldNotWrite "PUT")]) := by
  simp [stepOp]

theorem stepOp_delete_encode (st : SrvState) (i : Nat) (t : GoType) :
    stepOp "DELETE" st i (.encode t) = (st, [(.op i, .shouldNotWrite "DELETE")]) := by
  simp [stepOp]

theorem stepOp_get_custom_req (st : SrvState) (i : Nat) (req resp : GoType)
    (h : req ≠ .untypedNil) :
    ∃ d, (stepOp "GET" st i (.custom req resp)).2 = [(.op i, d)] := by
  by_cases hp : req.isPtrT = false
  · exact ⟨.requestNotPtr, by simp [stepOp, h, hp]⟩
  · exact ⟨.shouldNotRead "GET", by simp [stepOp, h, hp]⟩

theorem stepOp_put_custom_resp (st : SrvState) (i : Nat) (req resp : GoType)
    (h : resp ≠ .untypedNil) :
    ∃ d, (stepOp "PUT" st i (.custom req resp)).2 = [(.op i, d)] := by
  by_cases hq : req = .untypedNil
  · exact ⟨.shouldReadRequest "PUT", by subst hq; simp [stepOp, GoType.isPtrT]⟩
  · by_cases hp : req.isPtrT = false
    · exact ⟨.requestNotPtr, by simp [stepOp, hq, hp]⟩
    · exact ⟨.shouldNotWrite "PUT", by simp [stepOp, hq, hp, h]⟩

theorem stepOp_delete_custom (st : SrvState) (i : Nat) (req resp : GoType) :
    ∃ d, (stepOp "DELETE" st i (.custom req resp)).2 = [(.op i, d)] := by
  by_cases hq : req = .untypedNil
  · exact ⟨.shouldNotWrite "DELETE", by subst hq; simp [stepOp, GoType.isPtrT]⟩
  · by_cases hp : req.isPtrT = false
    · exact ⟨.requestNotPtr, by simp [stepOp, hq, hp]⟩
    · exact ⟨.shouldNotRead "DELETE", by simp [stepOp, hq, hp]⟩

theorem stepOp_post_no_shape (st : SrvState) (i : Nat) (op : CtxOp) :
    ∀ d ∈ (stepOp "POST" st i op).2, isShapeDiag d.2 = false := by
  intro d hd
  cases op <;> (simp only [stepOp] at hd; repeat' split at hd) <;>
    simp_all [isShapeDiag]

theorem runOps_post_no_shape : ∀ (ops : List CtxOp) (st : SrvState) (i : Nat),
    ∀ d ∈ (runOps "POST" st i ops).2, isShapeDiag d.2 = false
  | [], _, _ => by simp [runOps]
  | op :: ops, st, i => by
    intro d hd
    rw [runOps_cons] at hd
    rw [List.mem_append] at hd
    cases hd with
    | inl h => exact stepOp_post_no_shape st i op d h
    | inr h => exact runOps_post_no_shape ops _ _ d h

theorem parse_final_get (path : String) (ops : List CtxOp)
    (h : (runOps "GET" ⟨none, none, initParams path, []⟩ 0 ops).1.response.getD .untypedNil
        = .untypedNil) :
    (parseServerRoute "GET" path ops).1 = none
    ∧ (.body, .shouldWriteResponse "GET") ∈ (parseServerRoute "GET" path ops).2 := by
  simp only [parseServerRoute]
  rw [if_pos ⟨by trivial, h⟩]
  simp

theorem parse_final_put (path : String) (ops : List CtxOp)
    (h : (runOps "PUT" ⟨none, none, initParams path, []⟩ 0 ops).1.request.getD .untypedNil
        = .untypedNil) :
    (parseServerRoute "PUT" path ops).1 = none
    ∧ (.body, .shouldReadRequest "PUT") ∈ (parseServerRoute "PUT" path ops).2 := by
  simp only [parseServerRoute]
  rw [if_neg (fun hc => by simpa using hc.1), if_pos ⟨by trivial, h⟩]
  simp

/-- C4 counterexample: a GET handler that both Decodes and Encodes. The
Decode violation is reported, but extraction is NOT aborted: the route is
still returned (with the Encode recorded), refuting "aborts extraction for
that route" for per-call violations — `return false` in the `ast.Inspect`
callback only prunes that call's subtree. -/
theorem C4_abort_counterexample :
    (parseServerRoute "GET" "/x"
        [.decode (.ptr (.named "int")), .encode (.named "string")]).2
      = [(.op 0, .shouldNotRead "GET")]
    ∧ (parseServerRoute "GET" "/x"
        [.decode (.ptr (.named "int")), .encode (.named "string")]).1 ≠ none := by
  decide

/-- C4 (amended): the method-shape rules as the extractor enforces them.
A GET route reading a request body (`Decode`, or `Custom` with a non-nil
request) is reported at the offending call; a GET route ending with no
response type is reported at the handler body and aborts extraction of
that route. A PUT route writing a response (`Encode`, or `Custom` with a
non-nil response) is reported at the offending call; a PUT route ending
with no request type is reported at the body and aborts extraction.
A DELETE route reading (`Decode`) or writing (`Encode`, or any `Custom`)
is reported at the offending call. POST routes never receive a
method-shape diagnostic. Per-call violations do NOT abort extraction: the
walk continues and the route can still be extracted, as in the GET
Decode+Encode example. -/
theorem C4_method_shape :
    (∀ (path : String) (t : GoType) (l₁ l₂ : List CtxOp),
        (.op l₁.length, .shouldNotRead "GET")
          ∈ (parseServerRoute "GET" path (l₁ ++ .decode t :: l₂)).2)
    ∧ (∀ (path : String) (req resp : GoType) (l₁ l₂ : List CtxOp),
        req ≠ .untypedNil →
        ∃ d, (.op l₁.length, d)
          ∈ (parseServerRoute "GET" path (l₁ ++ .custom req resp :: l₂)).2)
    ∧ (∀ (path : String) (ops : List CtxOp),
        (runOps "GET" ⟨none, none, initParams path, []⟩ 0 ops).1.response.getD .untypedNil
            = .untypedNil →
        (parseServerRoute "GET" path ops).1 = none
          ∧ (.body, .shouldWriteResponse "GET") ∈ (parseServerRoute "GET" path ops).2)
    ∧ (∀ (path : String) (t : GoType) (l₁ l₂ : List CtxOp),
        (.op l₁.length, .shouldNotWrite "PUT")
          ∈ (parseServerRoute "PUT" path (l₁ ++ .encode t :: l₂)).2)
    ∧ (∀ (path : String) (req resp : GoType) (l₁ l₂ : List CtxOp),
        resp ≠ .untypedNil →
        ∃ d, (.op l₁.length, d)
          ∈ (parseServerRoute "PUT" path (l₁ ++ .custom req resp :: l₂)).2)
    ∧ (∀ (path : String) (ops : List CtxOp),
        (runOps "PUT" ⟨none, none, initParams path, []⟩ 0 ops).1.request.getD .untypedNil
            = .untypedNil →
        (parseServerRoute "PUT" path ops).1 = none
          ∧ (.body, .shouldReadRequest "PUT") ∈ (parseServerRoute "PUT" path ops).2)
    ∧ (∀ (path : String) (t : GoType) (l₁ l₂ : List CtxOp),
        (.op l₁.length, .shouldNotRead "DELETE")
          ∈ (parseServerRoute "DELETE" path (l₁ ++ .decode t :: l₂)).2)
    ∧ (∀ (path : String) (t : GoType) (l₁ l₂ : List CtxOp),
        (.op l₁.length, .shouldNotWrite "DELETE")
          ∈ (parseServerRoute "DELETE" path (l₁ ++ .encode t :: l₂)).2)
    ∧ (∀ (path : String) (req resp : GoType) (l₁ l₂ : List CtxOp),
        ∃ d, (.op l₁.length, d)
          ∈ (parseServerRoute "DELETE" path (l₁ ++ .custom req resp :: l₂)).2)
    ∧ (∀ (path : String) (ops : List CtxOp) (d : SPos × SDiag),
        d ∈ (parseServerRoute "POST" path ops).2 → isShapeDiag d.2 = false)
    ∧ (parseServerRoute "GET" "/x"
        [.decode (.ptr (.named "int")), .encode (.named "string")]).1
        = some ⟨"GET", "/x", [], [], .untypedNil, .named "string"⟩ := by
  refine ⟨?_, ?_, parse_final_get, ?_, ?_, parse_final_put, ?_, ?_, ?_, ?_, by decide⟩
  · intro path t l₁ l₂
    apply mem_parse_diags
    apply mem_runOps_middle
    rw [stepOp_get_decode]
    simp
  · intro path req resp l₁ l₂ h
    obtain ⟨d, hd⟩ := stepOp_get_custom_req
      (runOps "GET" ⟨none, none, initParams path, []⟩ 0 l₁).1 (0 + l₁.length) req resp h
    refine ⟨d, mem_parse_diags _ _ _ _ (mem_runOps_middle _ _ _ _ _ _ _ ?_)⟩
    rw [hd]
    simp
  · intro path t l₁ l₂
    apply mem_parse_diags
    apply mem_runOps_middle
    rw [stepOp_put_encode]
    simp
  · intro path req resp l₁ l₂ h
    obtain ⟨d, hd⟩ := stepOp_put_custom_resp
      (runOps "PUT" ⟨none, none, initParams path, []⟩ 0 l₁).1 (0 + l₁.length) req resp h
    refine ⟨d, mem_parse_diags _ _ _ _ (mem_runOps_middle _ _ _ _ _ _ _ ?_)⟩
    rw [hd]
    simp
  · intro path t l₁ l₂
    apply mem_parse_diags
    apply mem_runOps_middle
    rw [stepOp_delete_decode]
    simp
  · intro path t l₁ l₂
    apply mem_parse_diags
    apply mem_runOps_middle
    rw [stepOp_delete_encode]
    simp
  · intro path req resp l₁ l₂
    obtain ⟨d, hd⟩ := stepOp_delete_custom
      (runOps "DELETE" ⟨none, none, initParams path, []⟩ 0 l₁).1 (0 + l₁.length) req resp
    refine ⟨d, mem_parse_diags _ _ _ _ (mem_runOps_middle _ _ _ _ _ _ _ ?_)⟩
    rw [hd]
    simp
  · intro path ops d hd
    refine runOps_post_no_shape ops ⟨none, none, initParams path, []⟩ 0 d ?_
    simp only [parseServerRoute] at hd
    have hng : ¬(("POST" : String) = "GET" ∧
        (runOps "POST" ⟨none, none, initParams path, []⟩ 0 ops).1.response.getD .untypedNil
          = .untypedNil) := fun hc => by simpa using hc.1
    have hnp : ¬(("POST" : String) = "PUT" ∧
        (runOps "POST" ⟨none, none, initParams path, []⟩ 0 ops).1.request.getD .untypedNil
          = .untypedNil) := fun hc => by simpa using hc.1
    rw [if_neg hng, if_neg hnp] at hd
    exact hd

/-- Witness for C4: a GET route whose handler is a bare `Custom(&req, nil)`
read — the per-call report lands at the call's index and the route is also
rejected at the body for never writing a response. -/
theorem C4_method_shape_witness :
    (∃ d, (.op 0, d)
        ∈ (parseServerRoute "GET" "/w"
            [.custom (.ptr (.named "int")) .untypedNil]).2)
    ∧ (parseServerRoute "GET" "/w"
        [.custom (.ptr (.named "int")) .untypedNil]).1 = none := by
  refine ⟨?_, ?_⟩
  · have h := C4_method_shape.2.1 "/w" (.ptr (.named "int")) .untypedNil [] []
      (by decide)
    simpa using h
  · exact (C4_method_shape.2.2.1 "/w" [.custom (.ptr (.named "int")) .untypedNil]
      (by decide)).1

/-! ## C8: Decode conflict reporting -/

theorem stepOp_preserve_request (method : String) (st : SrvState) (i : Nat)
    (op : CtxOp) (h : isReqOp op = false) :
    (stepOp method st i op).1.request = st.request
    ∧ ∀ d ∈ (stepOp method st i op).2, isDecodeConflict d.2 = false := by
  cases op with
  | custom a b => simp [isReqOp] at h
  | decode t => simp [isReqOp] at h
  | encode t =>
    constructor
    · simp only [stepOp]
      repeat' split
      all_goals simp
    · intro d hd
      simp only [stepOp] at hd
      repeat' split at hd
      all_goals simp_all [isDecodeConflict]
  | decodeForm name t =>
    constructor
    · simp only [stepOp]
      repeat' split
      all_goals simp
    · intro d hd
      simp only [stepOp] at hd
      repeat' split at hd
      all_goals simp_all [isDecodeConflict]
  | decodeParam name t =>
    constructor
    · simp only [stepOp]
      repeat' split
      all_goals simp
    · intro d hd
      simp only [stepOp] at hd
      repeat' split at hd
      all_goals simp_all [isDecodeConflict]
  | pathParam name =>
    constructor
    · simp only [stepOp]
      repeat' split
      all_goals simp
    · intro d hd
      simp only [stepOp] at hd
      repeat' split at hd
      all_goals simp_all [isDecodeConflict]

theorem runOps_preserve_request (method : String) :
    ∀ (l : List CtxOp) (st : SrvState) (i : Nat),
    (∀ op ∈ l, isReqOp op = false) →
    (runOps method st i l).1.request = st.request
    ∧ ∀ d ∈ (runOps method st i l).2, isDecodeConflict d.2 = false
  | [], st, i, _ => by simp [runOps]
  | op :: ops, st, i, h => by
    have hop := stepOp_preserve_request method st i op (h op (by simp))
    have hrest := runOps_preserve_request method ops (stepOp method st i op).1 (i + 1)
      (fun o ho => h o (by simp [ho]))
    rw [runOps_cons]
    constructor
    · rw [hrest.1, hop.1]
    · intro d hd
      rw [List.mem_append] at hd
      cases hd with
      | inl hx => exact hop.2 d hx
      | inr hx => exact hrest.2 d hx

theorem stepOp_decode_set (method : String) (st : SrvState) (i : Nat) (t : GoType)
    (hm : ¬(method = "GET" ∨ method = "DELETE")) (hp : t.isPtrT = true)
    (hr : st.request = none) :
    stepOp method st i (.decode t) = ({ st with request := some t }, []) := by
  simp only [stepOp]
  rw [if_neg hm, if_neg (by simp [hp]), hr]

theorem stepOp_decode_conflict (method : String) (st : SrvState) (i : Nat)
    (t prev : GoType) (hm : ¬(method = "GET" ∨ method = "DELETE"))
    (hp : t.isPtrT = true) (hr : st.request = some prev) (hne : t ≠ prev) :
    stepOp method st i (.decode t) = (st, [(.op i, .decodeConflict t prev)]) := by
  simp only [stepOp]
  rw [if_neg hm, if_neg (by simp [hp]), hr]
  simp [hne]

theorem stepOp_decode_same (method : String) (st : SrvState) (i : Nat) (t : GoType)
    (hm : ¬(method = "GET" ∨ method = "DELETE")) (hp : t.isPtrT = true)
    (hr : st.request = some t) :
    stepOp method st i (.decode t) = ({ st with request := some t }, []) := by
  simp only [stepOp]
  rw [if_neg hm, if_neg (by simp [hp]), hr]
  simp

theorem runOps_two_decodes (method : String) (hm : ¬(method = "GET" ∨ method = "DELETE"))
    (t₁ t₂ : GoType) (hp₁ : t₁.isPtrT = true) (hp₂ : t₂.isPtrT = true) (hne : t₂ ≠ t₁)
    (l₁ l₂ l₃ : List CtxOp) (st : SrvState) (i : Nat) (hst : st.request = none)
    (h₁ : ∀ op ∈ l₁, isReqOp op = false) (h₂ : ∀ op ∈ l₂, isReqOp op = false)
    (h₃ : ∀ op ∈ l₃, isReqOp op = false) :
    (runOps method st i (l₁ ++ .decode t₁ :: (l₂ ++ .decode t₂ :: l₃))).1.request = some t₁
    ∧ (.op (i + l₁.length + 1 + l₂.length), .decodeConflict t₂ t₁)
        ∈ (runOps method st i (l₁ ++ .decode t₁ :: (l₂ ++ .decode t₂ :: l₃))).2
    ∧ (runOps method st i (l₁ ++ .decode t₁ :: (l₂ ++ .decode t₂ :: l₃))).2.countP
        (fun d => isDecodeConflict d.2) = 1 := by
  obtain ⟨hr₁, hc₁⟩ := runOps_preserve_request method l₁ st i h₁
  have hstep₁ : stepOp method (runOps method st i l₁).1 (i + l₁.length) (.decode t₁)
      = ({ (runOps method st i l₁).1 with request := some t₁ }, []) :=
    stepOp_decode_set method _ _ _ hm hp₁ (by rw [hr₁, hst])
  obtain ⟨hr₂, hc₂⟩ := runOps_preserve_request method l₂
    { (runOps method st i l₁).1 with request := some t₁ } (i + l₁.length + 1) h₂
  have hstep₂ : stepOp method
      (runOps method { (runOps method st i l₁).1 with request := some t₁ }
        (i + l₁.length + 1) l₂).1
      (i + l₁.length + 1 + l₂.length) (.decode t₂)
      = ((runOps method { (runOps method st i l₁).1 with request := some t₁ }
            (i + l₁.length + 1) l₂).1,
         [(.op (i + l₁.length + 1 + l₂.length), .decodeConflict t₂ t₁)]) :=
    stepOp_decode_conflict method _ _ _ _ hm hp₂ (by rw [hr₂]) hne
  obtain ⟨hr₃, hc₃⟩ := runOps_preserve_request method l₃
    (runOps method { (runOps method st i l₁).1 with request := some t₁ }
      (i + l₁.length + 1) l₂).1 (i + l₁.length + 1 + l₂.length + 1) h₃
  rw [runOps_append l₁, runOps_cons, hstep₁, runOps_append l₂, runOps_cons, hstep₂]
  refine ⟨?_, ?_, ?_⟩
  · rw [hr₃, hr₂]
  · simp [List.mem_append]
  · have z₁ : (runOps method st i l₁).2.countP (fun d => isDecodeConflict d.2) = 0 :=
      List.countP_eq_zero.mpr (fun d hd => by simp [hc₁ d hd])
    have z₂ : (runOps method { (runOps method st i l₁).1 with request := some t₁ }
        (i + l₁.length + 1) l₂).2.countP (fun d => isDecodeConflict d.2) = 0 :=
      List.countP_eq_zero.mpr (fun d hd => by simp [hc₂ d hd])
    have z₃ : (runOps method
        (runOps method { (runOps method st i l₁).1 with request := some t₁ }
          (i + l₁.length + 1) l₂).1
        (i + l₁.length + 1 + l₂.length + 1) l₃).2.countP
          (fun d => isDecodeConflict d.2) = 0 :=
      List.countP_eq_zero.mpr (fun d hd => by simp [hc₃ d hd])
    have hone : isDecodeConflict (SDiag.decodeConflict t₂ t₁) = true := rfl
    simp only [] at z₂ z₃
    simp [List.countP_append, List.countP_cons, z₁, z₂, z₃, hone]

theorem runOps_two_decodes_same (method : String)
    (hm : ¬(method = "GET" ∨ method = "DELETE"))
    (t : GoType) (hp : t.isPtrT = true)
    (l₁ l₂ l₃ : List CtxOp) (st : SrvState) (i : Nat) (hst : st.request = none)
    (h₁ : ∀ op ∈ l₁, isReqOp op = false) (h₂ : ∀ op ∈ l₂, isReqOp op = false)
    (h₃ : ∀ op ∈ l₃, isReqOp op = false) :
    (runOps method st i (l₁ ++ .decode t :: (l₂ ++ .decode t :: l₃))).2.countP
        (fun d => isDecodeConflict d.2) = 0 := by
  obtain ⟨hr₁, hc₁⟩ := runOps_preserve_request method l₁ st i h₁
  have hstep₁ : stepOp method (runOps method st i l₁).1 (i + l₁.length) (.decode t)
      = ({ (runOps method st i l₁).1 with request := some t }, []) :=
    stepOp_decode_set method _ _ _ hm hp (by rw [hr₁, hst])
  obtain ⟨hr₂, hc₂⟩ := runOps_preserve_request method l₂
    { (runOps method st i l₁).1 with request := some t } (i + l₁.length + 1) h₂
  have hstep₂ : stepOp method
      (runOps method { (runOps method st i l₁).1 with request := some t }
        (i + l₁.length + 1) l₂).1
      (i + l₁.length + 1 + l₂.length) (.decode t)
      = ({ (runOps method { (runOps method st i l₁).1 with request := some t }
            (i + l₁.length + 1) l₂).1 with request := some t }, []) :=
    stepOp_decode_same method _ _ _ hm hp (by rw [hr₂])
  obtain ⟨hr₃, hc₃⟩ := runOps_preserve_request method l₃
    { (runOps method { (runOps method st i l₁).1 with request := some t }
        (i + l₁.length + 1) l₂).1 with request := some t }
    (i + l₁.length + 1 + l₂.length + 1) h₃
  rw [runOps_append l₁, runOps_cons, hstep₁, runOps_append l₂, runOps_cons, hstep₂]
  have z₁ : (runOps method st i l₁).2.countP (fun d => isDecodeConflict d.2) = 0 :=
    List.countP_eq_zero.mpr (fun d hd => by simp [hc₁ d hd])
  have z₂ : (runOps method { (runOps method st i l₁).1 with request := some t }
      (i + l₁.length + 1) l₂).2.countP (fun d => isDecodeConflict d.2) = 0 :=
    List.countP_eq_zero.mpr (fun d hd => by simp [hc₂ d hd])
  have z₃ : (runOps method
      { (runOps method { (runOps method st i l₁).1 with request := some t }
          (i + l₁.length + 1) l₂).1 with request := some t }
      (i + l₁.length + 1 + l₂.length + 1) l₃).2.countP
        (fun d => isDecodeConflict d.2) = 0 :=
    List.countP_eq_zero.mpr (fun d hd => by simp [hc₃ d hd])
  simp only [] at z₂ z₃
  simp [List.countP_append, z₁, z₂, z₃]

/-- C8 counterexample: a POST handler whose two Decode arguments have
non-identical types, the second a non-pointer: the extractor reports
"Decode called on non-pointer value" there — not the
"Decode called on X, but was previously called on Y" error the claim
predicts for every such handler (the non-pointer check fires first;
likewise in GET/DELETE handlers the method-shape check fires first). -/
theorem C8_conflict_counterexample :
    (.op 1, .decodeConflict (.named "string") (.ptr (.named "int")))
        ∉ (parseServerRoute "POST" "/x"
            [.decode (.ptr (.named "int")), .decode (.named "string")]).2
    ∧ (parseServerRoute "POST" "/x"
        [.decode (.ptr (.named "int")), .decode (.named "string")]).2
        = [(.op 1, .decodeNonPtr)] := by
  decide

/-- C8 (amended): in a handler whose method is neither GET nor DELETE and
in which Decode is called exactly twice with pointer-typed arguments of
non-identical types (and no other Decode/Custom ops), the extractor
reports "Decode called on X, but was previously called on Y" at the
second call — exactly one such diagnostic — the request field keeps the
first type, and the route is still returned for the other checks; a second
Decode with an identical type produces no conflict diagnostic. -/
theorem C8_decode_conflict :
    (∀ (method path : String) (t₁ t₂ : GoType) (l₁ l₂ l₃ : List CtxOp),
        method ≠ "GET" → method ≠ "DELETE" →
        t₁.isPtrT = true → t₂.isPtrT = true → t₂ ≠ t₁ →
        (∀ op ∈ l₁, isReqOp op = false) → (∀ op ∈ l₂, isReqOp op = false) →
        (∀ op ∈ l₃, isReqOp op = false) →
        (.op (l₁.length + 1 + l₂.length), .decodeConflict t₂ t₁)
            ∈ (parseServerRoute method path
                (l₁ ++ .decode t₁ :: (l₂ ++ .decode t₂ :: l₃))).2
        ∧ (parseServerRoute method path
            (l₁ ++ .decode t₁ :: (l₂ ++ .decode t₂ :: l₃))).2.countP
              (fun d => isDecodeConflict d.2) = 1
        ∧ ∃ r, (parseServerRoute method path
              (l₁ ++ .decode t₁ :: (l₂ ++ .decode t₂ :: l₃))).1 = some r
            ∧ r.request = t₁)
    ∧ (∀ (method path : String) (t : GoType) (l₁ l₂ l₃ : List CtxOp),
        method ≠ "GET" → method ≠ "DELETE" → t.isPtrT = true →
        (∀ op ∈ l₁, isReqOp op = false) → (∀ op ∈ l₂, isReqOp op = false) →
        (∀ op ∈ l₃, isReqOp op = false) →
        (parseServerRoute method path
            (l₁ ++ .decode t :: (l₂ ++ .decode t :: l₃))).2.countP
              (fun d => isDecodeConflict d.2) = 0) := by
  constructor
  · intro method path t₁ t₂ l₁ l₂ l₃ hG hD hp₁ hp₂ hne h₁ h₂ h₃
    have hm : ¬(method = "GET" ∨ method = "DELETE") := by
      rintro (hc | hc)
      · exact hG hc
      · exact hD hc
    obtain ⟨hreq, hmem, hcount⟩ :=
      runOps_two_decodes method hm t₁ t₂ hp₁ hp₂ hne l₁ l₂ l₃
        ⟨none, none, initParams path, []⟩ 0 rfl h₁ h₂ h₃
    have ht₁nil : t₁ ≠ GoType.untypedNil := by
      intro hc
      rw [hc] at hp₁
      exact absurd hp₁ (by decide)
    have hcond₁ : ¬(method = "GET"
        ∧ (runOps method ⟨none, none, initParams path, []⟩ 0
            (l₁ ++ .decode t₁ :: (l₂ ++ .decode t₂ :: l₃))).1.response.getD .untypedNil
          = .untypedNil) := fun hc => hG hc.1
    have hcond₂ : ¬(method = "PUT"
        ∧ (runOps method ⟨none, none, initParams path, []⟩ 0
            (l₁ ++ .decode t₁ :: (l₂ ++ .decode t₂ :: l₃))).1.request.getD .untypedNil
          = .untypedNil) := by
      intro hc
      have h2 := hc.2
      rw [hreq] at h2
      simp at h2
      exact ht₁nil h2
    refine ⟨?_, ?_, ?_⟩
    · apply mem_parse_diags
      simpa using hmem
    · simp only [parseServerRoute]
      rw [if_neg hcond₁, if_neg hcond₂]
      exact hcount
    · simp only [parseServerRoute]
      rw [if_neg hcond₁, if_neg hcond₂]
      refine ⟨_, rfl, ?_⟩
      simp only []
      rw [hreq]
      rfl
  · intro method path t l₁ l₂ l₃ hG hD hp h₁ h₂ h₃
    have hm : ¬(method = "GET" ∨ method = "DELETE") := by
      rintro (hc | hc)
      · exact hG hc
      · exact hD hc
    have hcount := runOps_two_decodes_same method hm t hp l₁ l₂ l₃
      ⟨none, none, initParams path, []⟩ 0 rfl h₁ h₂ h₃
    simp only [parseServerRoute]
    split
    · rw [List.countP_append, hcount]
      decide
    · split
      · rw [List.countP_append, hcount]
        decide
      · exact hcount

/-- Witness for C8: a POST handler with `Decode(*int)` then
`Decode(*string)` reports the conflict at index 1. -/
theorem C8_decode_conflict_witness :
    (.op 1, .decodeConflict (.ptr (.named "string")) (.ptr (.named "int")))
        ∈ (parseServerRoute "POST" "/x"
            [.decode (.ptr (.named "int")), .decode (.ptr (.named "string"))]).2 := by
  have h := (C8_decode_conflict.1 "POST" "/x" (.ptr (.named "int"))
    (.ptr (.named "string")) [] [] [] (by decide) (by decide) (by decide) (by decide)
    (by decide) (by intro op hc; cases hc) (by intro op hc; cases hc)
    (by intro op hc; cases hc)).1
  simpa using h

/-! ## C3: parity diagnostics (missing method, route not defined, duplicates) -/

theorem markSeen_map_pair (rs : List RouteEntry) (k : String) :
    (markSeen rs k).map pairOf = rs.map pairOf := by
  induction rs with
  | nil => rfl
  | cons e rest ih =>
    by_cases h : e.key = k <;> simp [markSeen, h, pairOf, ih]

theorem keysOf_markSeen (rs : List RouteEntry) (k : String) :
    keysOf (markSeen rs k) = keysOf rs := by
  induction rs with
  | nil => rfl
  | cons e rest ih =>
    by_cases h : e.key = k
    · simp [markSeen, h, keysOf]
    · simp [markSeen, h, keysOf]
      simpa [keysOf] using ih

theorem processOne_map_pair (rs : List RouteEntry) (c : CRoute) :
    ((processOne rs c).1).map pairOf = rs.map pairOf := by
  unfold processOne
  cases hl : lookupRoute rs c.normalizedRoute with
  | none => rfl
  | some e =>
    by_cases hs : e.seen <;> simp [hs, markSeen_map_pair]

theorem keysOf_processOne (rs : List RouteEntry) (c : CRoute) :
    keysOf ((processOne rs c).1) = keysOf rs := by
  unfold processOne
  cases hl : lookupRoute rs c.normalizedRoute with
  | none => rfl
  | some e =>
    by_cases hs : e.seen <;> simp [hs, keysOf_markSeen]

theorem processCalls_cons (rs : List RouteEntry) (c : CRoute) (cs : List CRoute) :
    processCalls rs (c :: cs)
      = ((processCalls (processOne rs c).1 cs).1,
         (processOne rs c).2 ++ (processCalls (processOne rs c).1 cs).2) := rfl

theorem processCalls_map_pair (rs : List RouteEntry) :
    ∀ crs : List CRoute, ((processCalls rs crs).1).map pairOf = rs.map pairOf := by
  intro crs
  induction crs generalizing rs with
  | nil => rfl
  | cons c cs ih =>
    rw [processCalls_cons]
    calc ((processCalls (processOne rs c).1 cs).1).map pairOf
        = ((processOne rs c).1).map pairOf := ih _
      _ = rs.map pairOf := processOne_map_pair rs c

theorem keysOf_processCalls (rs : List RouteEntry) :
    ∀ crs : List CRoute, keysOf ((processCalls rs crs).1) = keysOf rs := by
  intro crs
  induction crs generalizing rs with
  | nil => rfl
  | cons c cs ih =>
    rw [processCalls_cons]
    calc keysOf ((processCalls (processOne rs c).1 cs).1)
        = keysOf ((processOne rs c).1) := ih _
      _ = keysOf rs := keysOf_processOne rs c

theorem processCalls_append (rs : List RouteEntry) :
    ∀ (a b : List CRoute),
    processCalls rs (a ++ b)
      = ((processCalls (processCalls rs a).1 b).1,
         (processCalls rs a).2 ++ (processCalls (processCalls rs a).1 b).2) := by
  intro a
  induction a generalizing rs with
  | nil => intro b; simp [processCalls]
  | cons c cs ih =>
    intro b
    rw [List.cons_append, processCalls_cons, ih, processCalls_cons]
    simp [List.append_assoc]

theorem lookupRoute_key : ∀ (rs : List RouteEntry) (k : String) (e : RouteEntry),
    lookupRoute rs k = some e → e.key = k
  | [], _, _, h => by simp [lookupRoute] at h
  | e' :: rest, k, e, h => by
    by_cases hk : e'.key = k
    · simp [lookupRoute, hk] at h
      rw [← h]
      exact hk
    · simp [lookupRoute, hk] at h
      exact lookupRoute_key rest k e h

theorem lookupRoute_eq_none_iff (rs : List RouteEntry) (k : String) :
    lookupRoute rs k = none ↔ k ∉ keysOf rs := by
  induction rs with
  | nil => simp [lookupRoute, keysOf]
  | cons e rest ih =>
    by_cases hk : e.key = k
    · simp [lookupRoute, hk, keysOf]
    · simp [lookupRoute, hk, keysOf] at ih ⊢
      constructor
      · intro h
        exact ⟨fun hc => hk hc.symm, ih.mp h⟩
      · intro h
        exact ih.mpr h.2

theorem lookupRoute_nodup_mem : ∀ (rs : List RouteEntry),
    (keysOf rs).Nodup → ∀ e ∈ rs, lookupRoute rs e.key = some e
  | [], _, e, h => by simp at h
  | e' :: rest, hnd, e, h => by
    have hnd' : (keysOf rest).Nodup := by
      simpa [keysOf] using hnd.of_cons
    rcases List.mem_cons.mp h with he | he
    · subst he
      simp [lookupRoute]
    · by_cases hk : e'.key = e.key
      · exfalso
        have hx : (∀ x ∈ rest, ¬x.key = e'.key)
            ∧ (List.map (fun x => x.key) rest).Nodup := by
          simpa [keysOf] using hnd
        exact hx.1 e he hk.symm
      · simp [lookupRoute, hk]
        exact lookupRoute_nodup_mem rest hnd' e he

theorem markSeen_mem_of_ne (rs : List RouteEntry) (k : String) (e : RouteEntry)
    (he : e ∈ rs) (hk : e.key ≠ k) : e ∈ markSeen rs k := by
  induction rs with
  | nil => simp at he
  | cons e' rest ih =>
    rcases List.mem_cons.mp he with h | h
    · subst h
      by_cases h' : e.key = k
      · exact absurd h' hk
      · simp [markSeen, h']
    · by_cases h' : e'.key = k
      · simp [markSeen, h']
        exact Or.inr h
      · simp [markSeen, h']
        exact Or.inr (by simpa using ih h)

theorem markSeen_mem_self : ∀ (rs : List RouteEntry), (keysOf rs).Nodup →
    ∀ e ∈ rs, (⟨e.key, e.route, true⟩ : RouteEntry) ∈ markSeen rs e.key
  | [], _, e, h => by simp at h
  | e' :: rest, hnd, e, h => by
    rcases List.mem_cons.mp h with he | he
    · subst he
      simp [markSeen]
    · by_cases hk : e'.key = e.key
      · exfalso
        have hx : (∀ x ∈ rest, ¬x.key = e'.key)
            ∧ (List.map (fun x => x.key) rest).Nodup := by
          simpa [keysOf] using hnd
        exact hx.1 e he hk.symm
      · have hnd' : (keysOf rest).Nodup := by
          simpa [keysOf] using hnd.of_cons
        simp [markSeen, hk]
        exact Or.inr (markSeen_mem_self rest hnd' e he)

theorem compareRequest_classify (sr : SRoute) (o : Option GoType) :
    ∀ d ∈ compareRequest sr o, isCompareDiag d = true := by
  intro d hd
  unfold compareRequest at hd
  rcases o with _ | got
  · simp at hd
  · by_cases hc : got = elem sr.request
    · simp [hc] at hd
    · simp [hc] at hd
      simp [hd, isCompareDiag]

theorem compareResponse_classify (sr : SRoute) (o : Option GoType) :
    ∀ d ∈ compareResponse sr o, isCompareDiag d = true := by
  intro d hd
  unfold compareResponse at hd
  rcases o with _ | got
  · simp at hd
  · by_cases hc : got = ptrTo sr.response
    · simp [hc] at hd
    · simp [hc] at hd
      simp [hd, isCompareDiag]

theorem comparePathParams_classify (sr : SRoute) :
    ∀ (sps : List SParam) (cps : List GoType),
    ∀ d ∈ comparePathParams sr sps cps, isCompareDiag d = true
  | [], _, d, hd => by simp [comparePathParams] at hd
  | sp :: sps, [], d, hd => by
    simp only [comparePathParams, List.mem_cons] at hd
    rcases hd with h | h
    · simp [h, isCompareDiag]
    · exact comparePathParams_classify sr sps [] d h
  | sp :: sps, c :: cs, d, hd => by
    simp only [comparePathParams, List.mem_append] at hd
    rcases hd with h | h
    · by_cases hc : identicalO c (elemO sp.typ)
      · simp [hc] at h
      · simp [hc] at h
        simp [h, isCompareDiag]
    · exact comparePathParams_classify sr sps cs d h

theorem compareQueryParams_classify (sr : SRoute) :
    ∀ (qs : List (String × GoType)),
    ∀ d ∈ compareQueryParams sr qs, isCompareDiag d = true
  | [], d, hd => by simp [compareQueryParams] at hd
  | (name, got) :: rest, d, hd => by
    simp only [compareQueryParams, List.mem_append] at hd
    rcases hd with h | h
    · rcases hq : lookupAssoc sr.queryParams name with _ | sq
      · rw [hq] at h
        simp at h
        simp [h, isCompareDiag]
      · rw [hq] at h
        by_cases hc : got = elem sq
        · simp [hc] at h
        · simp [hc] at h
          simp [h, isCompareDiag]
    · exact compareQueryParams_classify sr rest d h

theorem compareRoute_classify (sr : SRoute) (cr : CRoute) :
    ∀ d ∈ compareRoute sr cr, isCompareDiag d = true := by
  intro d hd
  unfold compareRoute at hd
  simp only [List.mem_append] at hd
  rcases hd with ((h | h) | h) | h
  · exact compareRequest_classify sr cr.request d h
  · exact compareResponse_classify sr cr.response d h
  · exact comparePathParams_classify sr sr.pathParams cr.pathParams d h
  · exact compareQueryParams_classify sr cr.queryParams d h

theorem processOne_diag_classify (rs : List RouteEntry) (c : CRoute) :
    ∀ d ∈ (processOne rs c).2,
      d = .routeNotDefined c ∨ d = .multipleRefs c ∨ isCompareDiag d = true := by
  intro d hd
  unfold processOne at hd
  rcases hl : lookupRoute rs c.normalizedRoute with _ | e
  · rw [hl] at hd
    simp at hd
    exact Or.inl hd
  · rw [hl] at hd
    by_cases hs : e.seen
    · simp [hs] at hd
      exact Or.inr (Or.inl hd)
    · simp [hs] at hd
      exact Or.inr (Or.inr (compareRoute_classify e.route c d hd))

theorem processCalls_diag_classify (rs : List RouteEntry) :
    ∀ (crs : List CRoute), ∀ d ∈ (processCalls rs crs).2,
      (∃ c, d = .routeNotDefined c) ∨ (∃ c, d = .multipleRefs c)
        ∨ isCompareDiag d = true := by
  intro crs
  induction crs generalizing rs with
  | nil => intro d hd; simp [processCalls] at hd
  | cons c cs ih =>
    intro d hd
    rw [processCalls_cons, List.mem_append] at hd
    rcases hd with h | h
    · rcases processOne_diag_classify rs c d h with h' | h' | h'
      · exact Or.inl ⟨c, h'⟩
      · exact Or.inr (Or.inl ⟨c, h'⟩)
      · exact Or.inr (Or.inr h')
    · exact ih _ d h

theorem finalize_mem : ∀ (rs : List RouteEntry) (d : Diag),
    d ∈ finalize rs → ∃ r, d = .missingMethod r
  | [], d, h => by simp [finalize] at h
  | e :: rest, d, h => by
    simp only [finalize, List.mem_append] at h
    rcases h with h | h
    · by_cases hs : e.seen
      · simp [hs] at h
      · simp [hs] at h
        exact ⟨e.route, h⟩
    · exact finalize_mem rest d h

theorem finalize_countP_missing (sr : SRoute) : ∀ (rs : List RouteEntry),
    countDiag (finalize rs) (.missingMethod sr)
      = rs.countP (fun e => !e.seen && decide (e.route = sr))
  | [] => by simp [finalize, countDiag]
  | e :: rest => by
    simp only [finalize, countDiag, List.countP_append, List.countP_cons]
    have ih := finalize_countP_missing sr rest
    by_cases hs : e.seen
    · simp [hs, countDiag] at ih ⊢
      exact ih
    · by_cases hr : e.route = sr
      · simp [hs, hr, countDiag] at ih ⊢
        omega
      · simp [hs, hr, countDiag] at ih ⊢
        exact ih

theorem processOne_preserve (rs : List RouteEntry) (c : CRoute) (e : RouteEntry)
    (he : e ∈ rs) (hk : c.normalizedRoute ≠ e.key) : e ∈ (processOne rs c).1 := by
  unfold processOne
  rcases hl : lookupRoute rs c.normalizedRoute with _ | e'
  · exact he
  · by_cases hs : e'.seen
    · simp [hs]
      exact he
    · simp [hs]
      exact markSeen_mem_of_ne rs c.normalizedRoute e he (fun hc => hk hc.symm)

theorem processCalls_preserve (rs : List RouteEntry) :
    ∀ (crs : List CRoute) (e : RouteEntry), e ∈ rs →
    (∀ c ∈ crs, c.normalizedRoute ≠ e.key) → e ∈ (processCalls rs crs).1 := by
  intro crs
  induction crs generalizing rs with
  | nil => intro e he _; exact he
  | cons c cs ih =>
    intro e he hk
    rw [processCalls_cons]
    exact ih _ e (processOne_preserve rs c e he (hk c (by simp)))
      (fun c' hc' => hk c' (by simp [hc']))

theorem markSeen_seen_inv (rs : List RouteEntry) (k : String) (e : RouteEntry)
    (he : e ∈ markSeen rs k) (hs : e.seen = true) :
    (e ∈ rs ∧ e.seen = true) ∨ e.key = k := by
  induction rs with
  | nil => simp [markSeen] at he
  | cons e' rest ih =>
    by_cases hk : e'.key = k
    · simp [markSeen, hk] at he
      rcases he with h | h
      · subst h
        exact Or.inr rfl
      · exact Or.inl ⟨by simp [h], hs⟩
    · simp [markSeen, hk] at he
      rcases he with h | h
      · subst h
        exact Or.inl ⟨by simp, hs⟩
      · rcases ih h with h' | h'
        · exact Or.inl ⟨by simp [h'.1], h'.2⟩
        · exact Or.inr h'

theorem processOne_seen_inv (rs : List RouteEntry) (c : CRoute) (e : RouteEntry)
    (he : e ∈ (processOne rs c).1) (hs : e.seen = true) :
    (e ∈ rs ∧ e.seen = true) ∨ e.key = c.normalizedRoute := by
  unfold processOne at he
  rcases hl : lookupRoute rs c.normalizedRoute with _ | e'
  · rw [hl] at he
    exact Or.inl ⟨he, hs⟩
  · rw [hl] at he
    by_cases hsn : e'.seen
    · simp [hsn] at he
      exact Or.inl ⟨he, hs⟩
    · simp [hsn] at he
      exact markSeen_seen_inv rs c.normalizedRoute e he hs

theorem processCalls_seen_inv (rs : List RouteEntry) :
    ∀ (crs : List CRoute) (e : RouteEntry), e ∈ (processCalls rs crs).1 →
    e.seen = true →
    (e ∈ rs ∧ e.seen = true) ∨ e.key ∈ crs.map CRoute.normalizedRoute := by
  intro crs
  induction crs generalizing rs with
  | nil => intro e he hs; exact Or.inl ⟨he, hs⟩
  | cons c cs ih =>
    intro e he hs
    rw [processCalls_cons] at he
    rcases ih _ e he hs with h | h
    · rcases processOne_seen_inv rs c e h.1 h.2 with h' | h'
      · exact Or.inl h'
      · exact Or.inr (by simp [h'])
    · exact Or.inr (by simp [h])

theorem setRoute_not_mem (k : String) (r : SRoute) : ∀ (rs : List RouteEntry),
    k ∉ keysOf rs → setRoute rs k r = rs ++ [⟨k, r, false⟩]
  | [], _ => rfl
  | e :: rest, h => by
    have hk : ¬e.key = k := by
      intro hc
      exact h (by simp [keysOf, hc])
    simp [setRoute, hk]
    exact setRoute_not_mem k r rest (fun hc => h (by simp [keysOf] at hc ⊢; exact Or.inr hc))

theorem keysOf_setRoute_sub (k : String) (r : SRoute) : ∀ (rs : List RouteEntry),
    keysOf (setRoute rs k r) ⊆ k :: keysOf rs
  | [] => by simp [setRoute, keysOf]
  | e :: rest => by
    by_cases hk : e.key = k
    · simp [setRoute, hk, keysOf]
    · simp only [setRoute, hk, if_neg, ite_false, keysOf, List.map_cons]
      intro x hx
      rcases List.mem_cons.mp hx with h | h
      · simp [h]
      · rcases List.mem_cons.mp (keysOf_setRoute_sub k r rest h) with h' | h'
        · simp [h']
        · simp [keysOf] at h'
          simp [keysOf, h']

theorem keysOf_buildRoutes_go : ∀ (srs : List SRoute) (acc : List RouteEntry),
    keysOf (srs.foldl (fun rs r => setRoute rs r.normalizedRoute r) acc)
      ⊆ keysOf acc ++ srs.map SRoute.normalizedRoute
  | [], acc => by simp
  | r :: rest, acc => by
    intro x hx
    have hsub := keysOf_buildRoutes_go rest (setRoute acc r.normalizedRoute r) hx
    rw [List.mem_append] at hsub
    rcases hsub with h | h
    · rcases List.mem_cons.mp (keysOf_setRoute_sub r.normalizedRoute r acc h) with h' | h'
      · simp [h']
      · simp [h']
    · simp [h]

theorem keysOf_buildRoutes_sub (srs : List SRoute) :
    keysOf (buildRoutes srs) ⊆ srs.map SRoute.normalizedRoute := by
  intro x hx
  have := keysOf_buildRoutes_go srs [] hx
  simpa [keysOf] using this

theorem buildRoutes_go_eq : ∀ (srs : List SRoute) (acc : List RouteEntry),
    (∀ r ∈ srs, r.normalizedRoute ∉ keysOf acc) →
    (srs.map SRoute.normalizedRoute).Nodup →
    srs.foldl (fun rs r => setRoute rs r.normalizedRoute r) acc
      = acc ++ srs.map mkEntry
  | [], acc, _, _ => by simp
  | r :: rest, acc, hdis, hnd => by
    have hset : setRoute acc r.normalizedRoute r = acc ++ [⟨r.normalizedRoute, r, false⟩] :=
      setRoute_not_mem _ _ acc (hdis r (by simp))
    have hx : (∀ x ∈ rest, ¬x.normalizedRoute = r.normalizedRoute)
        ∧ (rest.map SRoute.normalizedRoute).Nodup := by
      simpa using hnd
    have hdis' : ∀ r' ∈ rest, r'.normalizedRoute ∉ keysOf (setRoute acc r.normalizedRoute r) := by
      intro r' hr' hc
      rw [hset] at hc
      simp [keysOf] at hc
      rcases hc with h | h
      · exact hdis r' (by simp [hr']) (by simp [keysOf]; exact h)
      · exact hx.1 r' hr' h
    calc (r :: rest).foldl (fun rs r => setRoute rs r.normalizedRoute r) acc
        = rest.foldl (fun rs r => setRoute rs r.normalizedRoute r)
            (setRoute acc r.normalizedRoute r) := rfl
      _ = setRoute acc r.normalizedRoute r ++ rest.map mkEntry :=
          buildRoutes_go_eq rest _ hdis' hx.2
      _ = acc ++ (r :: rest).map mkEntry := by
          rw [hset]
          simp [mkEntry]

theorem buildRoutes_eq_map (srs : List SRoute)
    (hnd : (srs.map SRoute.normalizedRoute).Nodup) :
    buildRoutes srs = srs.map mkEntry := by
  have := buildRoutes_go_eq srs [] (by simp [keysOf]) hnd
  simpa [buildRoutes] using this

theorem countP_eq_one_of_nodup {α : Type} [DecidableEq α] :
    ∀ (l : List α) (a : α), l.Nodup → a ∈ l → l.countP (fun x => x = a) = 1
  | [], a, _, h => by simp at h
  | b :: rest, a, hnd, h => by
    rcases List.mem_cons.mp h with hb | hb
    · subst hb
      have hnotin : a ∉ rest := (List.nodup_cons.mp hnd).1
      rw [List.countP_cons]
      have hz : rest.countP (fun x => x = a) = 0 :=
        List.countP_eq_zero.mpr (fun x hx => by
          simp only [decide_eq_true_eq]
          intro hc
          exact hnotin (hc ▸ hx))
      simp [hz]
    · have hne : b ≠ a := by
        intro hc
        exact (List.nodup_cons.mp hnd).1 (hc ▸ hb)
      rw [List.countP_cons]
      have := countP_eq_one_of_nodup rest a (List.nodup_cons.mp hnd).2 hb
      simp [this, hne]

theorem processCalls_no_mult (rs : List RouteEntry) :
    ∀ (crs : List CRoute),
    (∀ e ∈ rs, e.seen = true → ∀ c ∈ crs, c.normalizedRoute ≠ e.key) →
    (crs.map CRoute.normalizedRoute).Nodup →
    ((processCalls rs crs).2).countP isMultRefs = 0 := by
  intro crs
  induction crs generalizing rs with
  | nil => intro _ _; simp [processCalls]
  | cons c cs ih =>
    intro hseen hnd
    have hx : (∀ x ∈ cs, ¬x.normalizedRoute = c.normalizedRoute)
        ∧ (cs.map CRoute.normalizedRoute).Nodup := by
      simpa using hnd
    rw [processCalls_cons, List.countP_append]
    have hone : ((processOne rs c).2).countP isMultRefs = 0 := by
      unfold processOne
      rcases hl : lookupRoute rs c.normalizedRoute with _ | e
      · simp [isMultRefs]
      · by_cases hs : e.seen
        · exfalso
          have hkey := lookupRoute_key rs c.normalizedRoute e hl
          have hmem : e ∈ rs := by
            clear hseen
            induction rs with
            | nil => simp [lookupRoute] at hl
            | cons e' rest ih' =>
              by_cases hk : e'.key = c.normalizedRoute
              · simp [lookupRoute, hk] at hl
                simp [← hl]
              · simp [lookupRoute, hk] at hl
                exact List.mem_cons_of_mem _ (ih' hl)
          exact hseen e hmem hs c (by simp) hkey.symm
        · simp only [hs]
          simp only [Bool.false_eq_true, if_false]
          exact List.countP_eq_zero.mpr (fun d hd => by
            have := compareRoute_classify e.route c d hd
            cases d <;> simp_all [isCompareDiag, isMultRefs])
    have hrest : ((processCalls (processOne rs c).1 cs).2).countP isMultRefs = 0 := by
      apply ih
      · intro e he hs c' hc'
        rcases processOne_seen_inv rs c e he hs with h | h
        · exact hseen e h.1 h.2 c' (by simp [hc'])
        · rw [h]
          exact fun hc => hx.1 c' hc' hc
      · exact hx.2
    omega

theorem runParity_missing_count (srs : List SRoute) (crs : List CRoute) (sr : SRoute)
    (hnd : (srs.map SRoute.normalizedRoute).Nodup) (hmem : sr ∈ srs)
    (hno : ∀ c ∈ crs, c.normalizedRoute ≠ sr.normalizedRoute) :
    countDiag (runParity srs crs) (.missingMethod sr) = 1 := by
  unfold runParity countDiag
  rw [List.countP_append]
  have hz : ((processCalls (buildRoutes srs) crs).2).countP
      (fun x => x = Diag.missingMethod sr) = 0 := by
    apply List.countP_eq_zero.mpr
    intro d hd
    rcases processCalls_diag_classify (buildRoutes srs) crs d hd with ⟨c, h⟩ | ⟨c, h⟩ | h
    · simp [h]
    · simp [h]
    · cases d <;> simp_all [isCompareDiag]
  rw [hz]
  have hfin := finalize_countP_missing sr ((processCalls (buildRoutes srs) crs).1)
  unfold countDiag at hfin
  rw [hfin]
  have hE : mkEntry sr ∈ buildRoutes srs := by
    rw [buildRoutes_eq_map srs hnd]
    exact List.mem_map_of_mem mkEntry hmem
  have hEp : mkEntry sr ∈ (processCalls (buildRoutes srs) crs).1 :=
    processCalls_preserve (buildRoutes srs) crs (mkEntry sr) hE
      (fun c hc => hno c hc)
  have hlow : 0 < ((processCalls (buildRoutes srs) crs).1).countP
      (fun e => !e.seen && decide (e.route = sr)) := by
    apply List.countP_pos_iff.mpr
    exact ⟨mkEntry sr, hEp, by simp [mkEntry]⟩
  have hmono : ((processCalls (buildRoutes srs) crs).1).countP
        (fun e => !e.seen && decide (e.route = sr))
      ≤ ((processCalls (buildRoutes srs) crs).1).countP
        (fun e => decide (e.route = sr)) := by
    apply List.countP_mono_left
    intro e _ h
    exact (Bool.and_eq_true ..).mp h |>.2
  have hroute : ((processCalls (buildRoutes srs) crs).1).countP
      (fun e => decide (e.route = sr)) = 1 := by
    have h1 : ((processCalls (buildRoutes srs) crs).1).countP
        (fun e => decide (e.route = sr))
        = (((processCalls (buildRoutes srs) crs).1).map pairOf).countP
            (fun pr => decide (pr.2 = sr)) :=
      (List.countP_map (fun pr : String × SRoute => decide (pr.2 = sr)) pairOf
        ((processCalls (buildRoutes srs) crs).1)).symm
    rw [h1, processCalls_map_pair, buildRoutes_eq_map srs hnd]
    rw [List.countP_map, List.countP_map]
    have h2 : srs.countP (((fun pr : String × SRoute => decide (pr.2 = sr)) ∘ pairOf) ∘ mkEntry)
        = srs.countP (fun r => decide (r = sr)) := rfl
    rw [h2]
    exact countP_eq_one_of_nodup srs sr (List.Nodup.of_map _ hnd) hmem
  omega

theorem processCalls_notdef_count (cr : CRoute) :
    ∀ (crs : List CRoute) (rs : List RouteEntry),
    cr.normalizedRoute ∉ keysOf rs →
    ((processCalls rs crs).2).countP (fun d => d = .routeNotDefined cr)
      = crs.countP (fun c => c = cr) := by
  intro crs
  induction crs with
  | nil => intro rs _; simp [processCalls]
  | cons c cs ih =>
    intro rs hk
    rw [processCalls_cons, List.countP_append, List.countP_cons]
    have hrest := ih (processOne rs c).1 (by rw [keysOf_processOne]; exact hk)
    by_cases hc : c = cr
    · subst hc
      have hl : lookupRoute rs c.normalizedRoute = none :=
        (lookupRoute_eq_none_iff rs c.normalizedRoute).mpr hk
      have hone : (processOne rs c).2 = [.routeNotDefined c] := by
        unfold processOne
        rw [hl]
      rw [hone]
      simp only [List.countP_cons, List.countP_nil]
      rw [hrest]
      omega
    · have hone : ((processOne rs c).2).countP (fun d => d = Diag.routeNotDefined cr) = 0 := by
        apply List.countP_eq_zero.mpr
        intro d hd
        rcases processOne_diag_classify rs c d hd with h | h | h
        · simp [h, hc]
        · simp [h]
        · cases d <;> simp_all [isCompareDiag]
      rw [hone, hrest]
      simp [hc]

theorem runParity_notdef_count (srs : List SRoute) (crs : List CRoute) (cr : CRoute)
    (hno : ∀ sr ∈ srs, sr.normalizedRoute ≠ cr.normalizedRoute) :
    countDiag (runParity srs crs) (.routeNotDefined cr)
      = crs.countP (fun c => c = cr) := by
  unfold runParity countDiag
  rw [List.countP_append]
  have hknotin : cr.normalizedRoute ∉ keysOf (buildRoutes srs) := by
    intro hc
    have := keysOf_buildRoutes_sub srs hc
    rcases List.mem_map.mp this with ⟨sr, hsr, hkey⟩
    exact hno sr hsr hkey
  have hfin : (finalize ((processCalls (buildRoutes srs) crs).1)).countP
      (fun x => x = Diag.routeNotDefined cr) = 0 := by
    apply List.countP_eq_zero.mpr
    intro d hd
    rcases finalize_mem _ d hd with ⟨r, hr⟩
    simp [hr]
  rw [hfin, processCalls_notdef_count cr crs (buildRoutes srs) hknotin]
  omega

theorem runParity_mult_count (srs : List SRoute) (l₁ l₂ l₃ : List CRoute)
    (c₁ c₂ : CRoute) (sr : SRoute)
    (hnd : (srs.map SRoute.normalizedRoute).Nodup)
    (hmem : sr ∈ srs)
    (hk₁ : c₁.normalizedRoute = sr.normalizedRoute)
    (hk₂ : c₂.normalizedRoute = sr.normalizedRoute)
    (hoth : ∀ c ∈ l₁ ++ l₂ ++ l₃, c.normalizedRoute ≠ sr.normalizedRoute)
    (hothnd : ((l₁ ++ l₂ ++ l₃).map CRoute.normalizedRoute).Nodup) :
    (runParity srs (l₁ ++ c₁ :: (l₂ ++ c₂ :: l₃))).countP isMultRefs = 1
    ∧ Diag.multipleRefs c₂ ∈ runParity srs (l₁ ++ c₁ :: (l₂ ++ c₂ :: l₃)) := by
  have hoth₁ : ∀ c ∈ l₁, c.normalizedRoute ≠ sr.normalizedRoute :=
    fun c hc => hoth c (by simp [hc])
  have hoth₂ : ∀ c ∈ l₂, c.normalizedRoute ≠ sr.normalizedRoute :=
    fun c hc => hoth c (by simp [hc])
  have hoth₃ : ∀ c ∈ l₃, c.normalizedRoute ≠ sr.normalizedRoute :=
    fun c hc => hoth c (by simp [hc])
  rw [show (l₁ ++ l₂ ++ l₃).map CRoute.normalizedRoute
      = (l₁.map CRoute.normalizedRoute ++ l₂.map CRoute.normalizedRoute)
        ++ l₃.map CRoute.normalizedRoute by simp] at hothnd
  have hnd₁ : (l₁.map CRoute.normalizedRoute).Nodup :=
    hothnd.of_append_left.of_append_left
  have hnd₂ : (l₂.map CRoute.normalizedRoute).Nodup :=
    hothnd.of_append_left.of_append_right
  have hnd₃ : (l₃.map CRoute.normalizedRoute).Nodup := hothnd.of_append_right
  have hdis12 := List.disjoint_of_nodup_append hothnd.of_append_left
  have hdisA3 := List.disjoint_of_nodup_append hothnd
  have hbuild : buildRoutes srs = srs.map mkEntry := buildRoutes_eq_map srs hnd
  have hkeys₀ : keysOf (buildRoutes srs) = srs.map SRoute.normalizedRoute := by
    rw [hbuild]
    simp [keysOf, mkEntry]
  have hunseen : ∀ e ∈ buildRoutes srs, e.seen = false := by
    rw [hbuild]
    intro e he
    rcases List.mem_map.mp he with ⟨r, _, hr⟩
    rw [← hr]
    rfl
  have hE : mkEntry sr ∈ buildRoutes srs := by
    rw [hbuild]
    exact List.mem_map_of_mem _ hmem
  -- segment l₁
  have hmult₁ : ((processCalls (buildRoutes srs) l₁).2).countP isMultRefs = 0 :=
    processCalls_no_mult _ l₁
      (fun e he hs => absurd hs (by simp [hunseen e he])) hnd₁
  have hkeys₁ : keysOf (processCalls (buildRoutes srs) l₁).1
      = srs.map SRoute.normalizedRoute := by
    rw [keysOf_processCalls, hkeys₀]
  have hE₁ : mkEntry sr ∈ (processCalls (buildRoutes srs) l₁).1 :=
    processCalls_preserve _ l₁ _ hE (fun c hc => hoth₁ c hc)
  have hseen₁ : ∀ e ∈ (processCalls (buildRoutes srs) l₁).1, e.seen = true →
      e.key ∈ l₁.map CRoute.normalizedRoute := by
    intro e he hs
    rcases processCalls_seen_inv _ l₁ e he hs with h | h
    · exact absurd h.2 (by simp [hunseen e h.1])
    · exact h
  -- the first duplicate call
  have hlk₁ : lookupRoute (processCalls (buildRoutes srs) l₁).1 c₁.normalizedRoute
      = some (mkEntry sr) := by
    rw [hk₁]
    exact lookupRoute_nodup_mem _ (by rw [hkeys₁]; exact hnd) (mkEntry sr) hE₁
  have hpo₁ : processOne (processCalls (buildRoutes srs) l₁).1 c₁
      = (markSeen (processCalls (buildRoutes srs) l₁).1 c₁.normalizedRoute,
         compareRoute sr c₁) := by
    unfold processOne
    rw [hlk₁]
    simp [mkEntry]
  have hE₂ : (⟨sr.normalizedRoute, sr, true⟩ : RouteEntry)
      ∈ markSeen (processCalls (buildRoutes srs) l₁).1 c₁.normalizedRoute := by
    rw [hk₁]
    exact markSeen_mem_self _ (by rw [hkeys₁]; exact hnd) (mkEntry sr) hE₁
  have hkeys₂ : keysOf (markSeen (processCalls (buildRoutes srs) l₁).1 c₁.normalizedRoute)
      = srs.map SRoute.normalizedRoute := by
    rw [keysOf_markSeen, hkeys₁]
  have hseen₂ : ∀ e ∈ markSeen (processCalls (buildRoutes srs) l₁).1 c₁.normalizedRoute,
      e.seen = true →
      e.key = sr.normalizedRoute ∨ e.key ∈ l₁.map CRoute.normalizedRoute := by
    intro e he hs
    rcases markSeen_seen_inv _ _ e he hs with h | h
    · exact Or.inr (hseen₁ e h.1 h.2)
    · rw [hk₁] at h
      exact Or.inl h
  -- segment l₂
  have hmult₂ : ((processCalls
      (markSeen (processCalls (buildRoutes srs) l₁).1 c₁.normalizedRoute) l₂).2).countP
        isMultRefs = 0 := by
    apply processCalls_no_mult _ l₂ _ hnd₂
    intro e he hs c hc
    rcases hseen₂ e he hs with h | h
    · rw [h]
      exact hoth₂ c hc
    · intro hceq
      exact hdis12 h (hceq ▸ List.mem_map_of_mem _ hc)
  have hE₃ : (⟨sr.normalizedRoute, sr, true⟩ : RouteEntry)
      ∈ (processCalls
          (markSeen (processCalls (buildRoutes srs) l₁).1 c₁.normalizedRoute) l₂).1 :=
    processCalls_preserve _ l₂ _ hE₂ (fun c hc => hoth₂ c hc)
  have hkeys₃ : keysOf (processCalls
      (markSeen (processCalls (buildRoutes srs) l₁).1 c₁.normalizedRoute) l₂).1
      = srs.map SRoute.normalizedRoute := by
    rw [keysOf_processCalls, hkeys₂]
  have hseen₃ : ∀ e ∈ (processCalls
      (markSeen (processCalls (buildRoutes srs) l₁).1 c₁.normalizedRoute) l₂).1,
      e.seen = true →
      e.key = sr.normalizedRoute ∨ e.key ∈ l₁.map CRoute.normalizedRoute
        ∨ e.key ∈ l₂.map CRoute.normalizedRoute := by
    intro e he hs
    rcases processCalls_seen_inv _ l₂ e he hs with h | h
    · rcases hseen₂ e h.1 h.2 with h' | h'
      · exact Or.inl h'
      · exact Or.inr (Or.inl h')
    · exact Or.inr (Or.inr h)
  -- the second duplicate call
  have hlk₂ : lookupRoute (processCalls
      (markSeen (processCalls (buildRoutes srs) l₁).1 c₁.normalizedRoute) l₂).1
      c₂.normalizedRoute = some ⟨sr.normalizedRoute, sr, true⟩ := by
    rw [hk₂]
    exact lookupRoute_nodup_mem _ (by rw [hkeys₃]; exact hnd) _ hE₃
  have hpo₂ : processOne (processCalls
      (markSeen (processCalls (buildRoutes srs) l₁).1 c₁.normalizedRoute) l₂).1 c₂
      = ((processCalls
          (markSeen (processCalls (buildRoutes srs) l₁).1 c₁.normalizedRoute) l₂).1,
         [.multipleRefs c₂]) := by
    unfold processOne
    rw [hlk₂]
    rfl
  -- segment l₃
  have hmult₃ : ((processCalls (processCalls
      (markSeen (processCalls (buildRoutes srs) l₁).1 c₁.normalizedRoute) l₂).1
      l₃).2).countP isMultRefs = 0 := by
    apply processCalls_no_mult _ l₃ _ hnd₃
    intro e he hs c hc
    rcases hseen₃ e he hs with h | h | h
    · rw [h]
      exact hoth₃ c hc
    · intro hceq
      exact hdisA3 (List.mem_append_left _ h) (hceq ▸ List.mem_map_of_mem _ hc)
    · intro hceq
      exact hdisA3 (List.mem_append_right _ h) (hceq ▸ List.mem_map_of_mem _ hc)
  -- comparison diagnostics of the first call contain no duplicate report
  have hcmp : (compareRoute sr c₁).countP isMultRefs = 0 :=
    List.countP_eq_zero.mpr (fun d hd => by
      have := compareRoute_classify sr c₁ d hd
      cases d <;> simp_all [isCompareDiag, isMultRefs])
  -- assemble the full run
  simp only [runParity]
  rw [processCalls_append (buildRoutes srs) l₁ (c₁ :: (l₂ ++ c₂ :: l₃)),
    processCalls_cons, hpo₁,
    processCalls_append _ l₂ (c₂ :: l₃),
    processCalls_cons, hpo₂]
  have hfin : (finalize (processCalls (processCalls
      (markSeen (processCalls (buildRoutes srs) l₁).1 c₁.normalizedRoute) l₂).1
      l₃).1).countP isMultRefs = 0 :=
    List.countP_eq_zero.mpr (fun d hd => by
      rcases finalize_mem _ d hd with ⟨r, hr⟩
      simp [hr, isMultRefs])
  constructor
  · simp only [List.countP_append, hmult₁, hmult₂, hmult₃, hcmp, hfin,
      List.countP_cons, List.countP_nil]
    simp [isMultRefs]
  · simp [List.mem_append]

/-- C3: after the parity run, a server route never matched by any client
call yields exactly one "Client missing method" diagnostic; a client call
whose normalized key has no server route yields exactly one "route not
defined" diagnostic per occurrence; and when exactly two client calls map
to the same normalized key of an existing route (all other calls having
distinct other keys), exactly one "referenced multiple times" diagnostic
is emitted, carrying the second occurrence, while the first occurrence is
compared normally. -/
theorem C3_parity_diagnostic_counts :
    (∀ (srs : List SRoute) (crs : List CRoute) (sr : SRoute),
        (srs.map SRoute.normalizedRoute).Nodup → sr ∈ srs →
        (∀ c ∈ crs, c.normalizedRoute ≠ sr.normalizedRoute) →
        countDiag (runParity srs crs) (.missingMethod sr) = 1)
    ∧ (∀ (srs : List SRoute) (crs : List CRoute) (cr : CRoute),
        (∀ sr ∈ srs, sr.normalizedRoute ≠ cr.normalizedRoute) →
        countDiag (runParity srs crs) (.routeNotDefined cr)
          = crs.countP (fun c => c = cr))
    ∧ (∀ (srs : List SRoute) (l₁ l₂ l₃ : List CRoute) (c₁ c₂ : CRoute) (sr : SRoute),
        (srs.map SRoute.normalizedRoute).Nodup → sr ∈ srs →
        c₁.normalizedRoute = sr.normalizedRoute →
        c₂.normalizedRoute = sr.normalizedRoute →
        (∀ c ∈ l₁ ++ l₂ ++ l₃, c.normalizedRoute ≠ sr.normalizedRoute) →
        ((l₁ ++ l₂ ++ l₃).map CRoute.normalizedRoute).Nodup →
        (runParity srs (l₁ ++ c₁ :: (l₂ ++ c₂ :: l₃))).countP isMultRefs = 1
        ∧ Diag.multipleRefs c₂ ∈ runParity srs (l₁ ++ c₁ :: (l₂ ++ c₂ :: l₃))) :=
  ⟨runParity_missing_count, runParity_notdef_count, runParity_mult_count⟩

/-- Witness for C3: an unreferenced `GET /a` route reports one missing
method; a call to an undefined `GET /b` reports one route-not-defined; two
identical `GET /a` calls report one duplicate reference. -/
theorem C3_parity_diagnostic_counts_witness :
    countDiag
        (runParity [⟨"GET", "/a", [], [], .untypedNil, .named "int"⟩] [])
        (.missingMethod ⟨"GET", "/a", [], [], .untypedNil, .named "int"⟩) = 1
    ∧ countDiag
        (runParity [] [⟨"GET", "/b", [], [], none, some (.ptr (.named "int"))⟩])
        (.routeNotDefined ⟨"GET", "/b", [], [], none, some (.ptr (.named "int"))⟩)
        = [(⟨"GET", "/b", [], [], none, some (.ptr (.named "int"))⟩ : CRoute)].countP
            (fun c => c = ⟨"GET", "/b", [], [], none, some (.ptr (.named "int"))⟩)
    ∧ (runParity [⟨"GET", "/a", [], [], .untypedNil, .named "int"⟩]
        [⟨"GET", "/a", [], [], none, some (.ptr (.named "int"))⟩,
         ⟨"GET", "/a", [], [], none, some (.ptr (.named "int"))⟩]).countP isMultRefs = 1 :=
  ⟨C3_parity_diagnostic_counts.1
      [⟨"GET", "/a", [], [], .untypedNil, .named "int"⟩] []
      ⟨"GET", "/a", [], [], .untypedNil, .named "int"⟩
      (by decide) (by decide) (by decide),
   C3_parity_diagnostic_counts.2.1 []
      [⟨"GET", "/b", [], [], none, some (.ptr (.named "int"))⟩]
      ⟨"GET", "/b", [], [], none, some (.ptr (.named "int"))⟩ (by decide),
   (C3_parity_diagnostic_counts.2.2
      [⟨"GET", "/a", [], [], .untypedNil, .named "int"⟩] [] [] []
      ⟨"GET", "/a", [], [], none, some (.ptr (.named "int"))⟩
      ⟨"GET", "/a", [], [], none, some (.ptr (.named "int"))⟩
      ⟨"GET", "/a", [], [], .untypedNil, .named "int"⟩
      (by decide) (by decide) (by decide) (by decide) (by decide) (by decide)).1⟩

end Jape
